import Mathlib

/-!
# pacproxy: the statistics aggregator

A shallow embedding of `shared/statistics/statistics.go`,
`shared/mongoutils/mongo_utils.go`, the consumer handler of
`aggregator/aggregator.go` and the producer of `proxy/producer_manager.go`,
and proofs about them.

Modelling conventions.

* Go `int` counters are modelled as unbounded integers (`Int`); the counters
  count requests and items, and no claim below concerns wrap-around.
* Go `float64` is modelled by `F64`: an exact rational, or one of the
  non-finite values `+Inf`, `-Inf`, `NaN`.  Rounding and overflow to
  infinity are not modelled (the arithmetic on finite values is exact), but
  division by zero and the propagation of non-finite values are.
* Go `map[string]int` is modelled by `GoMap`, an association list with
  pairwise distinct keys.  `range` over a map visits the entries in the
  order of the association list; two maps are the same map when they hold
  the same value under every key.  A nil map is read as the empty map: every
  aggregate this package constructs (`Init`, `NewAggregatedKeyStats`) has
  its maps made, and a nil map is only ever ranged over.
* Methods with a pointer receiver return the updated receiver.
* The handler's `offsetByPartition` is an `Option`: `loadReset` can store the
  nil map in it, and an assignment into the nil map is a panic (`Fault`).
* The MongoDB database is a value `MongoDB`: each collection is the list of
  its documents in natural order, `ReplaceOne` replaces the first match,
  `InsertMany` appends, `Find` returns the matches in order.  Every call of
  the driver takes its outcome from a script, so that any call can fail.
* `time.Since` and `time.Now` read one clock value per record (`Delivery.now`,
  in nanoseconds); the payload of a record is given by its two decodings.
* The calls made on the session, on the consumer group and on `writeStats`
  are returned as a list of `Event`s.
* `hash/fnv` is the 32-bit FNV-1a function on numbers modulo `2 ^ 32`;
  `json.Marshal` is a parameter of the producer.
-/

namespace Pacproxy

/-! ## float64 -/

/-- Values of Go's `float64`: an exact rational or a non-finite value. -/
inductive F64 where
  | fin (q : ℚ)
  | pinf
  | ninf
  | nan
deriving DecidableEq

namespace F64

/-- Conversion `float64(n)` of an integer. -/
def ofInt (n : Int) : F64 := fin (n : ℚ)

/-- The sum `a + b` of two float64 values. -/
def add : F64 → F64 → F64
  | fin a, fin b => fin (a + b)
  | nan, _ => nan
  | _, nan => nan
  | pinf, ninf => nan
  | ninf, pinf => nan
  | pinf, _ => pinf
  | _, pinf => pinf
  | ninf, _ => ninf
  | _, ninf => ninf

/-- Sign-adjusted infinity: `+Inf` scaled by a non-zero finite factor. -/
def infOfSign (q : ℚ) : F64 := if 0 < q then pinf else if q < 0 then ninf else nan

/-- Opposite of a float64 value. -/
def neg : F64 → F64
  | fin a => fin (-a)
  | pinf => ninf
  | ninf => pinf
  | nan => nan

/-- The product `a * b` of two float64 values (`Inf * 0` is `NaN`). -/
def mul : F64 → F64 → F64
  | fin a, fin b => fin (a * b)
  | nan, _ => nan
  | _, nan => nan
  | pinf, fin b => infOfSign b
  | ninf, fin b => neg (infOfSign b)
  | fin a, pinf => infOfSign a
  | fin a, ninf => neg (infOfSign a)
  | pinf, pinf => pinf
  | ninf, ninf => pinf
  | pinf, ninf => ninf
  | ninf, pinf => ninf

/-- The quotient `a / b` of two float64 values.  A zero divisor is the
positive zero (every divisor of this package is the conversion of an integer
or a sum with `1`): `0 / 0` is `NaN` and `x / 0` is an infinity with the sign
of `x`. -/
def div : F64 → F64 → F64
  | fin a, fin b => if b = 0 then infOfSign a else fin (a / b)
  | nan, _ => nan
  | _, nan => nan
  | pinf, fin b => if b < 0 then ninf else pinf
  | ninf, fin b => if b < 0 then pinf else ninf
  | fin _, pinf => fin 0
  | fin _, ninf => fin 0
  | pinf, pinf => nan
  | pinf, ninf => nan
  | ninf, pinf => nan
  | ninf, ninf => nan

/-- The comparison `a > b` of two float64 values (false when either is `NaN`). -/
def gt : F64 → F64 → Bool
  | fin a, fin b => decide (b < a)
  | nan, _ => false
  | _, nan => false
  | pinf, pinf => false
  | pinf, _ => true
  | ninf, _ => false
  | fin _, ninf => true
  | fin _, pinf => false

/-- A float64 value is finite when it is neither an infinity nor `NaN`. -/
def IsFinite : F64 → Prop
  | fin _ => True
  | _ => False

instance (x : F64) : Decidable x.IsFinite := by
  cases x <;> unfold IsFinite <;> infer_instance

/-- Sum of a list of float64 values, starting from `0`. -/
def sum (l : List F64) : F64 := l.foldr add (fin 0)

end F64

/-! ## map[string]int -/

/-- Go's `map[string]int`: an association list with distinct keys. -/
abbrev GoMap := AList (fun _ : String => Int)

/-- The value `make(map[string]int)`. -/
def GoMap.empty : GoMap := (∅ : AList (fun _ : String => Int))

/-- The count stored under `k`, `0` when `k` is absent (Go's `m[k]`). -/
def GoMap.count (m : GoMap) (k : String) : Int := (m.lookup k).getD 0

/-- One iteration of the `range` loop of `importCounts`: add `v` to the
count under `k` when present, store `v` otherwise. -/
def importStep (dest : GoMap) (e : Sigma (fun _ : String => Int)) : GoMap :=
  match dest.lookup e.1 with
  | some old => dest.insert e.1 (old + e.2)
  | none => dest.insert e.1 e.2

/-- Embedding of `importCounts(source, dest)`; returns the updated `dest`. -/
def importCounts (source dest : GoMap) : GoMap :=
  source.entries.foldl importStep dest

/-- Encodes boolean as integer. -/
def btoi (b : Bool) : Int := if b then 1 else 0

/-! ## Data model -/

/-- Statistics for a single request. -/
structure Stats where
  UsedKeystem : String
  TotalItems : Int
  TotalVolume : F64
  VolumeUtilization : F64
  BoxTypes : GoMap
  TimeStamp : String
  CacheHit : Bool
  RequestError : Bool
  ErrorResponse : Bool
  StatusCode : String
  Latency : F64
deriving DecidableEq

/-- Highest latency of one keystem with its timestamp. -/
structure MaxLatency where
  Latency : F64
  TimeStamp : String
deriving DecidableEq

/-- Aggregated statistics for one keystem. -/
structure KeyStats where
  UsedKeystem : String
  TotalItems : Int
  TotalVolume : F64
  AvgItemsPerPack : F64
  AvgVolumeUtilization : F64
  BoxTypes : GoMap
  TotalRequests : Int
  StatusCodes : GoMap
  RequestErrorCount : Int
  ErrorResponseCount : Int
  CacheHits : Int
  HighestLatency : MaxLatency
  AvgLatency : F64
deriving DecidableEq

/-- The anonymous struct type of `AggregatedKeyStats.MaxLatency`. -/
structure KeyedMaxLatency where
  Latency : F64
  UsedKeystem : String
  TimeStamp : String
deriving DecidableEq

/-- The anonymous struct type of `AggregatedKeyStats.HighestAvgLatency`. -/
structure KeyedAvgLatency where
  Latency : F64
  UsedKeystem : String
deriving DecidableEq

/-- Aggregated statistics across multiple keystems. -/
structure AggregatedKeyStats where
  TotalItems : Int
  TotalVolume : F64
  AvgItemsPerPack : F64
  AvgVolumeUtilization : F64
  BoxTypes : GoMap
  TotalRequests : Int
  StatusCodes : GoMap
  RequestErrorCount : Int
  ErrorResponseCount : Int
  CacheHits : Int
  MaxLatency : KeyedMaxLatency
  AvgLatency : F64
  HighestAvgLatency : KeyedAvgLatency
deriving DecidableEq

/-! ## Operations -/

/-- Embedding of `KeyStats.Init`: every field but the keystem is zeroed. -/
def KeyStats.Init (_keyStats : KeyStats) (usedKeystem : String) : KeyStats :=
  { UsedKeystem := usedKeystem
    TotalItems := 0
    TotalVolume := F64.fin 0
    AvgItemsPerPack := F64.fin 0
    AvgVolumeUtilization := F64.fin 0
    BoxTypes := GoMap.empty
    TotalRequests := 0
    StatusCodes := GoMap.empty
    RequestErrorCount := 0
    ErrorResponseCount := 0
    CacheHits := 0
    HighestLatency := { Latency := F64.fin 0, TimeStamp := "" }
    AvgLatency := F64.fin 0 }

/-- The zero value `KeyStats{}` of Go (nil maps are read as empty maps). -/
def KeyStats.zero : KeyStats :=
  { UsedKeystem := ""
    TotalItems := 0
    TotalVolume := F64.fin 0
    AvgItemsPerPack := F64.fin 0
    AvgVolumeUtilization := F64.fin 0
    BoxTypes := GoMap.empty
    TotalRequests := 0
    StatusCodes := GoMap.empty
    RequestErrorCount := 0
    ErrorResponseCount := 0
    CacheHits := 0
    HighestLatency := { Latency := F64.fin 0, TimeStamp := "" }
    AvgLatency := F64.fin 0 }

/-- Embedding of `NewKeyStats`. -/
def NewKeyStats (keystem : String) : KeyStats := KeyStats.zero.Init keystem

/-- Embedding of `KeyStats.Reset`. -/
def KeyStats.Reset (keyStats : KeyStats) : KeyStats := keyStats.Init keyStats.UsedKeystem

/-- Embedding of `NewAggregatedKeyStats`: the zero value with empty maps. -/
def NewAggregatedKeyStats : AggregatedKeyStats :=
  { TotalItems := 0
    TotalVolume := F64.fin 0
    AvgItemsPerPack := F64.fin 0
    AvgVolumeUtilization := F64.fin 0
    BoxTypes := GoMap.empty
    TotalRequests := 0
    StatusCodes := GoMap.empty
    RequestErrorCount := 0
    ErrorResponseCount := 0
    CacheHits := 0
    MaxLatency := { Latency := F64.fin 0, UsedKeystem := "", TimeStamp := "" }
    AvgLatency := F64.fin 0
    HighestAvgLatency := { Latency := F64.fin 0, UsedKeystem := "" } }

/-- The status-code update of `AggregateStats`: one more under a non-empty
status code, nothing for the empty one. -/
def bumpStatus (codes : GoMap) (code : String) : GoMap :=
  if code ≠ "" then
    match codes.lookup code with
    | some old => codes.insert code (old + 1)
    | none => codes.insert code 1
  else codes

/-- Embedding of `KeyStats.AggregateStats`: aggregate the values of one
sample into a Key Aggregate.  Every right-hand side reads the fields of the
aggregate as they are at that statement of the source. -/
def KeyStats.AggregateStats (keyStats : KeyStats) (stats : Stats) : KeyStats :=
  let n := F64.ofInt keyStats.TotalRequests
  let hl : MaxLatency :=
    if !stats.CacheHit && F64.gt stats.Latency keyStats.HighestLatency.Latency then
      { Latency := stats.Latency, TimeStamp := stats.TimeStamp }
    else keyStats.HighestLatency
  let avgLat : F64 :=
    if !stats.CacheHit then
      F64.div
        (F64.add
          (F64.mul keyStats.AvgLatency (F64.ofInt (keyStats.TotalRequests - keyStats.CacheHits)))
          stats.Latency)
        (F64.ofInt (keyStats.TotalRequests - keyStats.CacheHits + 1))
    else keyStats.AvgLatency
  { UsedKeystem := keyStats.UsedKeystem
    TotalItems := keyStats.TotalItems + stats.TotalItems
    TotalVolume := F64.add keyStats.TotalVolume stats.TotalVolume
    AvgItemsPerPack :=
      F64.div (F64.add (F64.mul keyStats.AvgItemsPerPack n) (F64.ofInt stats.TotalItems))
        (F64.add n (F64.fin 1))
    AvgVolumeUtilization :=
      F64.div (F64.add (F64.mul keyStats.AvgVolumeUtilization n) stats.VolumeUtilization)
        (F64.add n (F64.fin 1))
    BoxTypes := importCounts stats.BoxTypes keyStats.BoxTypes
    TotalRequests := keyStats.TotalRequests + 1
    StatusCodes := bumpStatus keyStats.StatusCodes stats.StatusCode
    RequestErrorCount := keyStats.RequestErrorCount + btoi stats.RequestError
    ErrorResponseCount := keyStats.ErrorResponseCount + btoi stats.ErrorResponse
    CacheHits := keyStats.CacheHits + btoi stats.CacheHit
    HighestLatency := hl
    AvgLatency := avgLat }

/-- Embedding of `KeyStats.AggregateKeyStats`: merge `other` into `keyStats`. -/
def KeyStats.AggregateKeyStats (keyStats other : KeyStats) : KeyStats :=
  let n := F64.ofInt keyStats.TotalRequests
  let p := F64.ofInt other.TotalRequests
  let tot := F64.ofInt (keyStats.TotalRequests + other.TotalRequests)
  { UsedKeystem := keyStats.UsedKeystem
    TotalItems := keyStats.TotalItems + other.TotalItems
    TotalVolume := F64.add keyStats.TotalVolume other.TotalVolume
    AvgItemsPerPack :=
      F64.div (F64.add (F64.mul keyStats.AvgItemsPerPack n) (F64.mul p other.AvgItemsPerPack)) tot
    AvgVolumeUtilization :=
      F64.div
        (F64.add (F64.mul keyStats.AvgVolumeUtilization n) (F64.mul p other.AvgVolumeUtilization))
        tot
    BoxTypes := importCounts other.BoxTypes keyStats.BoxTypes
    TotalRequests := keyStats.TotalRequests + other.TotalRequests
    StatusCodes := importCounts other.StatusCodes keyStats.StatusCodes
    RequestErrorCount := keyStats.RequestErrorCount + other.RequestErrorCount
    ErrorResponseCount := keyStats.ErrorResponseCount + other.ErrorResponseCount
    CacheHits := keyStats.CacheHits + other.CacheHits
    HighestLatency := keyStats.HighestLatency
    AvgLatency :=
      F64.div
        (F64.add
          (F64.mul keyStats.AvgLatency (F64.ofInt (keyStats.TotalRequests - keyStats.CacheHits)))
          (F64.mul other.AvgItemsPerPack (F64.ofInt (other.TotalRequests - other.CacheHits))))
        (F64.ofInt
          (keyStats.TotalRequests - keyStats.CacheHits + other.TotalRequests - other.CacheHits)) }

/-- Embedding of `AggregatedKeyStats.AggregateKeyStats`: fold one Key
Aggregate into the Cross-Key Aggregate. -/
def AggregatedKeyStats.AggregateKeyStats (akStats : AggregatedKeyStats) (keyStats : KeyStats) :
    AggregatedKeyStats :=
  let m := F64.ofInt akStats.TotalRequests
  let p := F64.ofInt keyStats.TotalRequests
  let tot := F64.ofInt (akStats.TotalRequests + keyStats.TotalRequests)
  { TotalItems := akStats.TotalItems + keyStats.TotalItems
    TotalVolume := F64.add akStats.TotalVolume keyStats.TotalVolume
    AvgItemsPerPack :=
      F64.div (F64.add (F64.mul akStats.AvgItemsPerPack m) (F64.mul p keyStats.AvgItemsPerPack)) tot
    AvgVolumeUtilization :=
      F64.div
        (F64.add (F64.mul akStats.AvgVolumeUtilization m) (F64.mul p keyStats.AvgVolumeUtilization))
        tot
    BoxTypes := importCounts keyStats.BoxTypes akStats.BoxTypes
    TotalRequests := akStats.TotalRequests + keyStats.TotalRequests
    StatusCodes := importCounts keyStats.StatusCodes akStats.StatusCodes
    RequestErrorCount := akStats.RequestErrorCount + keyStats.RequestErrorCount
    ErrorResponseCount := akStats.ErrorResponseCount + keyStats.ErrorResponseCount
    CacheHits := akStats.CacheHits + keyStats.CacheHits
    MaxLatency :=
      if F64.gt keyStats.HighestLatency.Latency akStats.MaxLatency.Latency then
        { Latency := keyStats.HighestLatency.Latency
          UsedKeystem := keyStats.UsedKeystem
          TimeStamp := keyStats.HighestLatency.TimeStamp }
      else akStats.MaxLatency
    AvgLatency :=
      F64.div
        (F64.add
          (F64.mul akStats.AvgLatency (F64.ofInt (akStats.TotalRequests - akStats.CacheHits)))
          (F64.mul keyStats.AvgLatency (F64.ofInt (keyStats.TotalRequests - keyStats.CacheHits))))
        (F64.ofInt
          (akStats.TotalRequests + keyStats.TotalRequests - akStats.CacheHits - keyStats.CacheHits))
    HighestAvgLatency :=
      if F64.gt keyStats.AvgLatency akStats.HighestAvgLatency.Latency then
        { Latency := keyStats.AvgLatency, UsedKeystem := keyStats.UsedKeystem }
      else akStats.HighestAvgLatency }

/-- Applying a sequence of samples, in order, to a Key Aggregate. -/
def applySamples (a : KeyStats) (samples : List Stats) : KeyStats :=
  samples.foldl KeyStats.AggregateStats a

/-- Folding a list of Key Aggregates, in order, into a Cross-Key Aggregate
(the loop of `GetAggregatedKeyStats`). -/
def foldKeyStats (x : AggregatedKeyStats) (ks : List KeyStats) : AggregatedKeyStats :=
  ks.foldl AggregatedKeyStats.AggregateKeyStats x

/-! ## Vocabulary of the statements -/

/-- The rational value of a finite float64 (and `0` for a non-finite one). -/
def F64.toRat : F64 → ℚ
  | F64.fin q => q
  | _ => 0

/-- The samples of a sequence that are not cache hits, in order. -/
def nonCacheHits (samples : List Stats) : List Stats :=
  samples.filter (fun s => !s.CacheHit)

/-- Sum of the latencies of the samples that are not cache hits. -/
def latencySum (samples : List Stats) : ℚ :=
  ((nonCacheHits samples).map (fun s => s.Latency.toRat)).sum

/-! ## Example data -/

/-- A statistics sample with the given latency, cache-hit flag and timestamp. -/
def exampleStats (lat : ℚ) (hit : Bool) (ts : String) : Stats :=
  { UsedKeystem := "k"
    TotalItems := 2
    TotalVolume := F64.fin 3
    VolumeUtilization := F64.fin (1 / 2)
    BoxTypes := GoMap.empty.insert "small" 1
    TimeStamp := ts
    CacheHit := hit
    RequestError := false
    ErrorResponse := true
    StatusCode := "200"
    Latency := F64.fin lat }

/-- A Key Aggregate with the given keystem, request and cache-hit counts,
mean items per pack, mean latency and highest latency. -/
def exampleKeyStats (keystem : String) (requests hits : Int) (avg avgLat high : ℚ) : KeyStats :=
  { UsedKeystem := keystem
    TotalItems := 4 * requests
    TotalVolume := F64.fin 10
    AvgItemsPerPack := F64.fin avg
    AvgVolumeUtilization := F64.fin (1 / 4)
    BoxTypes := (GoMap.empty.insert "small" requests).insert keystem 1
    TotalRequests := requests
    StatusCodes := GoMap.empty.insert "200" requests
    RequestErrorCount := 1
    ErrorResponseCount := 0
    CacheHits := hits
    HighestLatency := { Latency := F64.fin high, TimeStamp := "t-" ++ keystem }
    AvgLatency := F64.fin avgLat }

/-- Three example Key Aggregates. -/
def exampleKeys : List KeyStats :=
  [exampleKeyStats "a" 3 1 2 5 9, exampleKeyStats "b" 4 0 1 6 7, exampleKeyStats "c" 1 1 0 0 0]

/-- The same three Key Aggregates in another order. -/
def exampleKeysRotated : List KeyStats :=
  [exampleKeyStats "c" 1 1 0 0 0, exampleKeyStats "a" 3 1 2 5 9, exampleKeyStats "b" 4 0 1 6 7]

/-! ## The document store (`shared/mongoutils/mongo_utils.go`) -/

/-- One document of the `offsets` collection. -/
structure PartitionOffset where
  Partition : Int
  Offset : Int
deriving DecidableEq

/-- Go's `map[int32]int64`, partition to offset. -/
abbrev OffsetMap := AList (fun _ : Int => Int)

/-- Go's `map[string]*statistics.KeyStats`, keystem to Key Aggregate. -/
abbrev StatsMap := AList (fun _ : String => KeyStats)

/-- What the driver answers to one call: success, success without
acknowledgement of the write, or an error. -/
inductive Outcome where
  | ok
  | unacknowledged
  | error
deriving DecidableEq

/-- A Go `error` value of the aggregator: an error of the driver, or the
`write acknowledgement not received from database` error of `writeStats`. -/
inductive GoError where
  | driver
  | notAcknowledged
deriving DecidableEq

/-- The database `gator`: the two collections, each a list of documents in
natural order, and the answers the driver will give to the coming calls
(`Outcome.ok` once the list is used up). -/
structure MongoDB where
  offsets : List PartitionOffset
  statistics : List KeyStats
  script : List Outcome
deriving DecidableEq

/-- One call of the driver: its outcome and the database with that outcome
consumed. -/
def MongoDB.call (db : MongoDB) : Outcome × MongoDB :=
  match db.script with
  | [] => (Outcome.ok, db)
  | o :: rest => (o, { db with script := rest })

/-- The effect of `collection.ReplaceOne(filter, doc)`: the first document
matching the filter is replaced; the second component is `MatchedCount`. -/
def replaceFirst {α : Type} (p : α → Bool) (doc : α) : List α → List α × Int
  | [] => ([], 0)
  | x :: xs =>
    if p x then (doc :: xs, 1)
    else ((x :: (replaceFirst p doc xs).1), (replaceFirst p doc xs).2)

/-- Embedding of `offsetSliceToMap`. -/
def offsetSliceToMap (offsets : List PartitionOffset) (offsetMap : OffsetMap) : OffsetMap :=
  offsets.foldl (fun m o => m.insert o.Partition o.Offset) offsetMap

/-- Embedding of `GetOffsets`: the result map (`none` is the nil map), the
error, and the database after the two driver calls `Find` and `cursor.All`. -/
def GetOffsets (db : MongoDB) (partitions : List Int) :
    (Option OffsetMap × Option GoError) × MongoDB :=
  if db.call.1 = Outcome.error then ((none, some GoError.driver), db.call.2)
  else if db.call.2.call.1 = Outcome.error then ((none, some GoError.driver), db.call.2.call.2)
  else
    ((some (offsetSliceToMap
        (db.offsets.filter (fun d => decide (d.Partition ∈ partitions))) ∅), none),
      db.call.2.call.2)

/-- The loop of `CreateUpdateOffsets` over the entries of the map, with the
variables `allAcknowledged` and `missedOffsets` of the source.  The writes
are issued with `context.Background()` and reach the collection at once. -/
def CreateUpdateOffsets.loop :
    List (Sigma (fun _ : Int => Int)) → Bool → List PartitionOffset → MongoDB →
      (Bool × Option GoError) × MongoDB
  | [], allAcknowledged, _, db => ((allAcknowledged, none), db)
  | e :: rest, allAcknowledged, missedOffsets, db =>
    let partitionOffset : PartitionOffset := { Partition := e.1, Offset := e.2 }
    -- collection.ReplaceOne
    if db.call.1 = Outcome.error then ((false, some GoError.driver), db.call.2)
    else
      let replaced :=
        replaceFirst (fun d => decide (d.Partition = e.1)) partitionOffset db.call.2.offsets
      let db1 : MongoDB := { db.call.2 with offsets := replaced.1 }
      let missed := if replaced.2 = 0 then missedOffsets ++ [partitionOffset] else missedOffsets
      if 0 < missed.length then
        -- collection.InsertMany
        if db1.call.1 = Outcome.error then ((false, some GoError.driver), db1.call.2)
        else
          let db2 : MongoDB := { db1.call.2 with offsets := db1.call.2.offsets ++ missed }
          CreateUpdateOffsets.loop rest
            (if db1.call.1 = Outcome.unacknowledged then false else allAcknowledged) missed db2
      else CreateUpdateOffsets.loop rest allAcknowledged missed db1

/-- Embedding of `CreateUpdateOffsets`; ranging over the nil map does nothing. -/
def CreateUpdateOffsets (db : MongoDB) (offsetMap : Option OffsetMap) :
    (Bool × Option GoError) × MongoDB :=
  match offsetMap with
  | none => ((true, none), db)
  | some m => CreateUpdateOffsets.loop m.entries true [] db

/-- Embedding of `GetKeyStats`: the result map (`none` is the nil map), the
error, and the database after the two driver calls. -/
def GetKeyStats (db : MongoDB) (keyStems : List String) :
    (Option StatsMap × Option GoError) × MongoDB :=
  if db.call.1 = Outcome.error then ((none, some GoError.driver), db.call.2)
  else if db.call.2.call.1 = Outcome.error then ((none, some GoError.driver), db.call.2.call.2)
  else
    ((some ((db.statistics.filter (fun d => decide (d.UsedKeystem ∈ keyStems))).foldl
        (fun m d => m.insert d.UsedKeystem d) ∅), none),
      db.call.2.call.2)

/-- The loop of `CreateUpdateKeyStats` over the entries of the map, with the
variables `allAcknowledged` and `missedKeyStats` of the source. -/
def CreateUpdateKeyStats.loop :
    List (Sigma (fun _ : String => KeyStats)) → Bool → List KeyStats → MongoDB →
      (Bool × Option GoError) × MongoDB
  | [], allAcknowledged, _, db => ((allAcknowledged, none), db)
  | e :: rest, allAcknowledged, missedKeyStats, db =>
    -- collection.ReplaceOne
    if db.call.1 = Outcome.error then ((false, some GoError.driver), db.call.2)
    else
      let replaced :=
        replaceFirst (fun d => decide (d.UsedKeystem = e.1)) e.2 db.call.2.statistics
      let db1 : MongoDB := { db.call.2 with statistics := replaced.1 }
      let missed := if replaced.2 = 0 then missedKeyStats ++ [e.2] else missedKeyStats
      if 0 < missed.length then
        -- collection.InsertMany
        if db1.call.1 = Outcome.error then ((false, some GoError.driver), db1.call.2)
        else
          let db2 : MongoDB := { db1.call.2 with statistics := db1.call.2.statistics ++ missed }
          CreateUpdateKeyStats.loop rest
            (if db1.call.1 = Outcome.unacknowledged then false else allAcknowledged) missed db2
      else CreateUpdateKeyStats.loop rest allAcknowledged missed db1

/-- Embedding of `CreateUpdateKeyStats`. -/
def CreateUpdateKeyStats (db : MongoDB) (keyStatsMap : StatsMap) :
    (Bool × Option GoError) × MongoDB :=
  CreateUpdateKeyStats.loop keyStatsMap.entries true [] db

/-! ## The aggregator (`aggregator/aggregator.go`) -/

/-- The constant `config.MessageTypeDelete`. -/
def MessageTypeDelete : String := "delete"

/-- The constant `config.MessageTypeStats`. -/
def MessageTypeStats : String := "stats"

/-- The constant `dbWriteInterval`, `5 * time.Second`, in nanoseconds. -/
def dbWriteInterval : Int := 5 * 1000000000

/-- The payload of a delete request. -/
structure DeleteRequest where
  UsedKeystem : String
deriving DecidableEq

/-- A header of a consumed record. -/
structure RecordHeader where
  Key : String
  Value : String
deriving DecidableEq

/-- A consumed record.  The payload `msg.Value` is represented by what
`json.Unmarshal` makes of it as a `Stats` and as a `DeleteRequest` (`none`
when it returns an error). -/
structure ConsumerMessage where
  Headers : List RecordHeader
  Partition : Int
  Offset : Int
  asStats : Option Stats
  asDeleteRequest : Option DeleteRequest
deriving DecidableEq

/-- A record as the message loop receives it: the message and the reading
of the clock (nanoseconds) while it is handled. -/
structure Delivery where
  msg : ConsumerMessage
  now : Int
deriving DecidableEq

/-- What the handler reads of a `sarama.ConsumerGroupSession`: the
generation id and the partitions claimed for the topic. -/
structure Session where
  GenerationID : Int
  Claims : List Int
deriving DecidableEq

/-- The fields of `consumerHandler` that the handler computes with.  The
offset map is `none` when the Go map is nil. -/
structure consumerHandler where
  sessionGenerationId : Int
  statsByKeystem : StatsMap
  offsetByPartition : Option OffsetMap
  lastWrite : Int
deriving DecidableEq

/-- The calls the handler makes on the session, on the consumer group and on
its own flush, in the order made.  `writeStats` carries the in-memory maps
the flush is called with. -/
inductive Event where
  | PauseAll
  | ResumeAll
  | ResetOffset (partition offset : Int)
  | MarkMessage (partition offset : Int)
  | writeStats (offsets : Option OffsetMap) (stats : StatsMap)
deriving DecidableEq

/-- A run-time panic of the Go program. -/
inductive Fault where
  | assignmentToNilMap
deriving DecidableEq

/-- The handler as `main` sets it up: both maps made, everything else zero. -/
def consumerHandler.initial : consumerHandler :=
  { sessionGenerationId := 0
    statsByKeystem := ∅
    offsetByPartition := some ∅
    lastWrite := 0 }

/-- Embedding of `getMessageType`: the value of the first header with key
`type`, the empty string when there is none. -/
def getMessageType (msg : ConsumerMessage) : String :=
  match msg.Headers.find? (fun hd => decide (hd.Key = "type")) with
  | some hd => hd.Value
  | none => ""

/-- Embedding of `writeStats`: `StartSession`, then the callback of
`WithTransaction`, then the commit.  The two writes of the callback are
issued by `CreateUpdateOffsets` and `CreateUpdateKeyStats` with
`context.Background()`, not with the context of the transaction, so they
reach the collections when they are made; the callback runs once. -/
def writeStats (h : consumerHandler) (db : MongoDB) : Option GoError × MongoDB :=
  -- h.mongoClient.StartSession()
  if db.call.1 = Outcome.error then (some GoError.driver, db.call.2)
  else
    let offsets := CreateUpdateOffsets db.call.2 h.offsetByPartition
    match offsets.1.2 with
    | some err => (some err, offsets.2)
    | none =>
      if offsets.1.1 = false then (some GoError.notAcknowledged, offsets.2)
      else
        let stats := CreateUpdateKeyStats offsets.2 h.statsByKeystem
        match stats.1.2 with
        | some err => (some err, stats.2)
        | none =>
          if stats.1.1 = false then (some GoError.notAcknowledged, stats.2)
          else
            -- commit of the transaction
            if stats.2.call.1 = Outcome.error then (some GoError.driver, stats.2.call.2)
            else (none, stats.2.call.2)

/-- Embedding of `clearKeyStats`. -/
def clearKeyStats (h : consumerHandler) : consumerHandler :=
  { h with statsByKeystem := ∅ }

/-- What `loadReset` leaves: the handler, the database, the calls made on the
session and the returned error. -/
structure LoadResult where
  handler : consumerHandler
  db : MongoDB
  events : List Event
  err : Option GoError
deriving DecidableEq

/-- Embedding of `loadReset`. -/
def loadReset (h : consumerHandler) (db : MongoDB) (sess : Session) : LoadResult :=
  let got := GetOffsets db sess.Claims
  let h1 : consumerHandler := { h with offsetByPartition := got.1.1 }
  match got.1.2 with
  | some err => { handler := h1, db := got.2, events := [], err := some err }
  | none =>
    let resets : List Event :=
      match h1.offsetByPartition with
      | some m => m.entries.map (fun e => Event.ResetOffset e.1 e.2)
      | none => []
    { handler := clearKeyStats h1, db := got.2, events := resets, err := none }

/-- Embedding of `Setup`: the error of `loadReset` is dropped. -/
def Setup (h : consumerHandler) (db : MongoDB) (sess : Session) :
    consumerHandler × MongoDB × List Event × Option GoError :=
  ((loadReset h db sess).handler, (loadReset h db sess).db, (loadReset h db sess).events, none)

/-- The statement `h.statsByKeystem[k] = NewKeyStats(k)` guarded by
`!keyExists`. -/
def ensureKeyStats (m : StatsMap) (k : String) : StatsMap :=
  match m.lookup k with
  | some _ => m
  | none => m.insert k (NewKeyStats k)

/-- A method call through the pointer `h.statsByKeystem[k]`. -/
def updateKeyStats (m : StatsMap) (k : String) (f : KeyStats → KeyStats) : StatsMap :=
  match m.lookup k with
  | some ks => m.insert k (f ks)
  | none => m

/-- The lazy hydration of the statistics branch: when the keystem is not in
the map, an empty aggregate is stored and then overwritten by what
`GetKeyStats` returns. -/
def hydrate (m : StatsMap) (db : MongoDB) (k : String) : StatsMap × MongoDB :=
  match m.lookup k with
  | some _ => (m, db)
  | none =>
    let got := GetKeyStats db [k]
    let m1 := m.insert k (NewKeyStats k)
    match got.1.1 with
    | some keyStatsMap => (keyStatsMap.entries.foldl (fun acc e => acc.insert e.1 e.2) m1, got.2)
    | none => (m1, got.2)

/-- One iteration of the message loop of `ConsumeClaim`: the handler, the
database and the calls made, or the panic that stops the program. -/
def handleMessage (h : consumerHandler) (db : MongoDB) (d : Delivery) :
    Except Fault (consumerHandler × MongoDB × List Event) :=
  let messageType := getMessageType d.msg
  if messageType = MessageTypeDelete then
    match d.msg.asDeleteRequest with
    | none => Except.ok (h, db, [])
    | some dr =>
      let stats := updateKeyStats (ensureKeyStats h.statsByKeystem dr.UsedKeystem) dr.UsedKeystem
        KeyStats.Reset
      match h.offsetByPartition with
      | none => Except.error Fault.assignmentToNilMap
      | some offsets =>
        let h1 : consumerHandler :=
          { h with statsByKeystem := stats
                   offsetByPartition := some (offsets.insert d.msg.Partition d.msg.Offset) }
        Except.ok (h1, (writeStats h1 db).2,
          [Event.writeStats h1.offsetByPartition h1.statsByKeystem,
           Event.MarkMessage d.msg.Partition d.msg.Offset])
  else if messageType = MessageTypeStats then
    match d.msg.asStats with
    | none => Except.ok (h, db, [])
    | some stats =>
      let hydrated := hydrate h.statsByKeystem db stats.UsedKeystem
      let aggregated := updateKeyStats hydrated.1 stats.UsedKeystem
        (fun ks => ks.AggregateStats stats)
      match h.offsetByPartition with
      | none => Except.error Fault.assignmentToNilMap
      | some offsets =>
        let h1 : consumerHandler :=
          { h with statsByKeystem := aggregated
                   offsetByPartition := some (offsets.insert d.msg.Partition d.msg.Offset) }
        if dbWriteInterval ≤ d.now - h1.lastWrite then
          match (writeStats h1 hydrated.2).1 with
          | some _ =>
            Except.ok (h1, (writeStats h1 hydrated.2).2,
              [Event.writeStats h1.offsetByPartition h1.statsByKeystem,
               Event.MarkMessage d.msg.Partition d.msg.Offset])
          | none =>
            Except.ok ({ h1 with lastWrite := d.now }, (writeStats h1 hydrated.2).2,
              [Event.writeStats h1.offsetByPartition h1.statsByKeystem,
               Event.MarkMessage d.msg.Partition d.msg.Offset])
        else
          Except.ok (h1, hydrated.2, [Event.MarkMessage d.msg.Partition d.msg.Offset])
  else
    Except.ok (h, db, [Event.MarkMessage d.msg.Partition d.msg.Offset])

/-- The message loop of `ConsumeClaim` over the records delivered. -/
def consumeMessages :
    consumerHandler → MongoDB → List Delivery →
      Except Fault (consumerHandler × MongoDB × List Event)
  | h, db, [] => Except.ok (h, db, [])
  | h, db, d :: rest =>
    match handleMessage h db d with
    | Except.error f => Except.error f
    | Except.ok (h1, db1, events1) =>
      match consumeMessages h1 db1 rest with
      | Except.error f => Except.error f
      | Except.ok (h2, db2, events2) => Except.ok (h2, db2, events1 ++ events2)

/-- The reload at the start of `ConsumeClaim`, run when the generation id of
the session differs from the one in the handler. -/
def reloadIfRebalanced (h : consumerHandler) (db : MongoDB) (sess : Session) :
    consumerHandler × MongoDB × List Event :=
  if h.sessionGenerationId ≠ sess.GenerationID then
    ((loadReset h db sess).handler, (loadReset h db sess).db,
      [Event.PauseAll] ++ (loadReset h db sess).events ++ [Event.ResumeAll])
  else (h, db, [])

/-- Embedding of `ConsumeClaim` for the records of one claim. -/
def ConsumeClaim (h : consumerHandler) (db : MongoDB) (sess : Session) (claim : List Delivery) :
    Except Fault (consumerHandler × MongoDB × List Event) :=
  match consumeMessages (reloadIfRebalanced h db sess).1 (reloadIfRebalanced h db sess).2.1
      claim with
  | Except.error f => Except.error f
  | Except.ok (h1, db1, events) =>
    Except.ok (h1, db1, (reloadIfRebalanced h db sess).2.2 ++ events)

/-! ## Example data of the aggregator -/

/-- A record of partition 0 with a `type` header of the given value behind
another header, and the given offset and decoded payloads. -/
def exampleMessage (type : String) (offset : Int) (asStats : Option Stats)
    (asDeleteRequest : Option DeleteRequest) : ConsumerMessage :=
  { Headers := [{ Key := "trace", Value := "x" }, { Key := "type", Value := type }]
    Partition := 0
    Offset := offset
    asStats := asStats
    asDeleteRequest := asDeleteRequest }

/-- A database with checkpoints for the partitions 0, 1 and 2. -/
def exampleStore : MongoDB :=
  { offsets := [{ Partition := 0, Offset := 40 }, { Partition := 1, Offset := 7 },
      { Partition := 2, Offset := 15 }]
    statistics := []
    script := [] }

/-- A handler holding one checkpoint and one Key Aggregate. -/
def exampleHandler : consumerHandler :=
  { sessionGenerationId := 0
    statsByKeystem := AList.insert "k" (NewKeyStats "k") ∅
    offsetByPartition := some (AList.insert 0 7 ∅)
    lastWrite := 0 }

/-- An empty database whose driver fails at the fourth call. -/
def exampleFailingStore : MongoDB :=
  { offsets := []
    statistics := []
    script := [Outcome.ok, Outcome.ok, Outcome.ok, Outcome.error] }

/-- An empty database whose driver never fails. -/
def emptyStore : MongoDB := { offsets := [], statistics := [], script := [] }

/-- The Key Aggregate of a keystem after the given number of requests, all
other fields empty. -/
def keyStatsWithRequests (keystem : String) (requests : Int) : KeyStats :=
  { NewKeyStats keystem with TotalRequests := requests }

/-- Whether a call is a flush. -/
def Event.isWriteStats : Event → Bool
  | Event.writeStats _ _ => true
  | _ => false

/-- The clock reading `s` seconds after its origin, in nanoseconds. -/
def seconds (s : Int) : Int := s * 1000000000

/-- A handler whose last timer-triggered flush succeeded at 10 s. -/
def flushedHandler : consumerHandler :=
  { consumerHandler.initial with lastWrite := seconds 10 }

/-- A well-formed delete request for keystem `k`, handled at 20 s. -/
def deleteAt20 : Delivery :=
  { msg := exampleMessage "delete" 1 none (some { UsedKeystem := "k" }), now := seconds 20 }

/-- A well-formed statistics sample for keystem `k`, handled at 21 s. -/
def statsAt21 : Delivery :=
  { msg := exampleMessage "stats" 2 (some (exampleStats 5 false "t1")) none, now := seconds 21 }

/-- A session of generation 1 claiming partition 0. -/
def exampleSession : Session := { GenerationID := 1, Claims := [0] }

/-- The handler after the delete request of `deleteAt20`: keystem `k` holds
the empty aggregate, the offset of the record is stored, `lastWrite` is as
before. -/
def afterDelete20 : consumerHandler :=
  { sessionGenerationId := 0
    statsByKeystem := AList.insert "k" (NewKeyStats "k") ∅
    offsetByPartition := some (AList.insert 0 1 ∅)
    lastWrite := seconds 10 }

/-- Every aggregate of the map is stored under its own keystem. -/
def WellKeyed (m : StatsMap) : Prop :=
  ∀ k ks, m.lookup k = some ks → ks.UsedKeystem = k

/-! ## The producer (`proxy/producer_manager.go`) -/

/-- The bytes `[]byte(s)` of a Go string. -/
def stringBytes (s : String) : List Nat := s.toUTF8.toList.map UInt8.toNat

/-- The 32-bit FNV-1a hash of `hash/fnv`: offset basis `2166136261`, and for
each byte an exclusive or followed by a multiplication by the prime
`16777619` modulo `2 ^ 32`. -/
def fnv1a32 (bytes : List Nat) : Nat :=
  bytes.foldl (fun h b => (Nat.xor h b * 16777619) % 2 ^ 32) 2166136261

/-- Embedding of `hash`: the FNV-1a sum of the string converted to `int32`. -/
def hash (s : String) : Int :=
  if fnv1a32 (stringBytes s) < 2 ^ 31 then (fnv1a32 (stringBytes s) : Int)
  else (fnv1a32 (stringBytes s) : Int) - 2 ^ 32

/-- The value `v any` handed to `sendMessage`: a pointer to a `Stats` or to a
`DeleteRequest`, the two types its callers pass. -/
inductive Payload where
  | stats (s : Stats)
  | deleteRequest (r : DeleteRequest)
deriving DecidableEq

/-- The keystem a payload carries. -/
def Payload.UsedKeystem : Payload → String
  | Payload.stats s => s.UsedKeystem
  | Payload.deleteRequest r => r.UsedKeystem

/-- The fields of `sarama.ProducerMessage` that the producer sets. -/
structure ProducerMessage where
  Topic : String
  Value : String
  Partition : Int
  Headers : List RecordHeader
deriving DecidableEq

/-- What a call of `sendMessage` does: a panic of a type assertion, the
return of an error, or the message put on the input of the producer. -/
inductive SendResult where
  | panic
  | error
  | sent (message : ProducerMessage)
deriving DecidableEq

/-- Embedding of `buildProducerMessage`; `marshal` is `json.Marshal`, `none`
when it returns an error. -/
def buildProducerMessage (marshal : Payload → Option String) (v : Payload) (partition : Int)
    (messageType : String) : Option ProducerMessage :=
  match marshal v with
  | none => none
  | some messageBody =>
    some { Topic := "statistics"
           Value := messageBody
           Partition := partition
           Headers := [{ Key := "type", Value := messageType }] }

/-- The keystem `sendMessage` reads from `v`: by a type assertion chosen by
the message type (`none` when the assertion panics), the empty string for
any other message type. -/
def sendMessage.usedKeyStem (v : Payload) (messageType : String) : Option String :=
  if messageType = MessageTypeStats then
    match v with
    | Payload.stats stats => some stats.UsedKeystem
    | Payload.deleteRequest _ => none
  else if messageType = MessageTypeDelete then
    match v with
    | Payload.deleteRequest request => some request.UsedKeystem
    | Payload.stats _ => none
  else some ""

/-- Embedding of `sendMessage`. -/
def sendMessage (marshal : Payload → Option String) (v : Payload) (messageType : String) :
    SendResult :=
  match sendMessage.usedKeyStem v messageType with
  | none => SendResult.panic
  | some usedKeyStem =>
    match buildProducerMessage marshal v (hash usedKeyStem) messageType with
    | none => SendResult.error
    | some producerMessage => SendResult.sent producerMessage

/-- A `json.Marshal` that encodes every payload. -/
def exampleMarshal : Payload → Option String
  | Payload.stats s => some ("stats:" ++ s.UsedKeystem)
  | Payload.deleteRequest r => some ("delete:" ++ r.UsedKeystem)

/-- The Cross-Key Aggregate `x` with the fields it shares with a Key
Aggregate set to the values of `a`. -/
def AggregatedKeyStats.withFieldsOf (x : AggregatedKeyStats) (a : KeyStats) :
    AggregatedKeyStats :=
  { x with
    TotalItems := a.TotalItems
    TotalVolume := a.TotalVolume
    AvgItemsPerPack := a.AvgItemsPerPack
    AvgVolumeUtilization := a.AvgVolumeUtilization
    BoxTypes := a.BoxTypes
    TotalRequests := a.TotalRequests
    StatusCodes := a.StatusCodes
    RequestErrorCount := a.RequestErrorCount
    ErrorResponseCount := a.ErrorResponseCount
    CacheHits := a.CacheHits
    AvgLatency := a.AvgLatency }

/-- A Key Aggregate of one request that was no cache hit, with the given
items (also the mean items per pack) and the given mean latency. -/
def oneRequestKeyStats (keystem : String) (items : Int) (avgLat : ℚ) : KeyStats :=
  { NewKeyStats keystem with
    TotalItems := items
    AvgItemsPerPack := F64.fin items
    TotalRequests := 1
    AvgLatency := F64.fin avgLat
    HighestLatency := { Latency := F64.fin avgLat, TimeStamp := "t" } }

/-! ## Histories of a Key Aggregate -/

/-- An operation on a Key Aggregate: the application of a sample or a reset. -/
inductive KeyOp where
  | sample (s : Stats)
  | reset
deriving DecidableEq

/-- The effect of one operation. -/
def KeyOp.apply (a : KeyStats) : KeyOp → KeyStats
  | KeyOp.sample s => a.AggregateStats s
  | KeyOp.reset => a.Reset

/-- The Key Aggregate reached by a sequence of operations. -/
def runOps (a : KeyStats) (ops : List KeyOp) : KeyStats :=
  ops.foldl KeyOp.apply a

/-- The samples applied after the last reset of a sequence of operations,
behind the samples `acc` applied before the sequence. -/
def samplesSince (acc : List Stats) (ops : List KeyOp) : List Stats :=
  ops.foldl (fun samples op =>
    match op with
    | KeyOp.sample s => samples ++ [s]
    | KeyOp.reset => []) acc

/-- The samples applied since the last reset. -/
def sinceReset (ops : List KeyOp) : List Stats := samplesSince [] ops

/-- Two samples, a reset, then a non-cache-hit sample of latency 7 and a
cache hit. -/
def exampleOps : List KeyOp :=
  [KeyOp.sample (exampleStats 5 false "t1"), KeyOp.sample (exampleStats 20 false "t2"),
    KeyOp.reset, KeyOp.sample (exampleStats 7 false "t3"),
    KeyOp.sample (exampleStats 9 true "t4")]

/-- A Cross-Key Aggregate and a Key Aggregate hold the same totals, the same
histograms and the same means. -/
def SameSummary (x : AggregatedKeyStats) (a : KeyStats) : Prop :=
  x.TotalItems = a.TotalItems ∧ x.TotalVolume = a.TotalVolume ∧
  x.TotalRequests = a.TotalRequests ∧ x.CacheHits = a.CacheHits ∧
  x.RequestErrorCount = a.RequestErrorCount ∧ x.ErrorResponseCount = a.ErrorResponseCount ∧
  (∀ key, x.BoxTypes.lookup key = a.BoxTypes.lookup key) ∧
  (∀ key, x.StatusCodes.lookup key = a.StatusCodes.lookup key) ∧
  x.AvgItemsPerPack = a.AvgItemsPerPack ∧ x.AvgVolumeUtilization = a.AvgVolumeUtilization ∧
  x.AvgLatency = a.AvgLatency

/-- The means of a Key Aggregate are finite and its counts are ordered. -/
def FiniteMeans (a : KeyStats) : Prop :=
  a.AvgItemsPerPack.IsFinite ∧ a.AvgVolumeUtilization.IsFinite ∧ a.AvgLatency.IsFinite ∧
  0 ≤ a.TotalRequests ∧ 0 ≤ a.TotalRequests - a.CacheHits

/-- The Key Aggregates of a list of sample sequences, each sequence applied
to the empty Key Aggregate of its keystem. -/
def keyAggregates (seqs : List (String × List Stats)) : List KeyStats :=
  seqs.map (fun p => applySamples (NewKeyStats p.1) p.2)

/-- The concatenation of the sample sequences. -/
def allSamples : List (String × List Stats) → List Stats
  | [] => []
  | p :: rest => p.2 ++ allSamples rest

/-- Two sample sequences, for the keystems `a` and `b`. -/
def exampleSequences : List (String × List Stats) :=
  [("a", [exampleStats 5 false "t1", exampleStats 9 true "t2"]),
   ("b", [exampleStats 7 false "t3"])]

/-- A handler with the given checkpoints and no aggregate. -/
def handlerWithOffsets (offsets : OffsetMap) : consumerHandler :=
  { consumerHandler.initial with offsetByPartition := some offsets }

/-- The database after two flushes on an empty store: first of the
checkpoints `0 ↦ 10, 1 ↦ 20`, then of `0 ↦ 11, 1 ↦ 21`. -/
def twiceFlushedStore : MongoDB :=
  (writeStats (handlerWithOffsets (AList.insert 0 11 (AList.insert 1 21 ∅)))
    (writeStats (handlerWithOffsets (AList.insert 0 10 (AList.insert 1 20 ∅))) emptyStore).2).2

/-- The same two flushes with the maps iterated in the other order,
partition 1 before partition 0. -/
def twiceFlushedStoreReversed : MongoDB :=
  (writeStats (handlerWithOffsets (AList.insert 1 21 (AList.insert 0 11 ∅)))
    (writeStats (handlerWithOffsets (AList.insert 1 20 (AList.insert 0 10 ∅))) emptyStore).2).2

/-- A session of generation 1 claiming the partitions 0 and 1. -/
def sessionOfTwo : Session := { GenerationID := 1, Claims := [0, 1] }

/-! ## float64 addition with its rounding -/

/-- The integer nearest to a rational, the even one of the two when the
rational lies half way. -/
def roundHalfEven (x : ℚ) : Int :=
  if x - (⌊x⌋ : ℚ) < 1 / 2 then ⌊x⌋
  else if 1 / 2 < x - (⌊x⌋ : ℚ) then ⌊x⌋ + 1
  else if ⌊x⌋ % 2 = 0 then ⌊x⌋ else ⌊x⌋ + 1

/-- The float64 nearest to a rational: 53 significant bits, ties to even.
Overflow to infinity and the subnormal range are not modelled. -/
def F64.round (q : ℚ) : ℚ :=
  if q = 0 then 0
  else (roundHalfEven (q / (2 : ℚ) ^ (Int.log 2 |q| - 52)) : ℚ) * (2 : ℚ) ^ (Int.log 2 |q| - 52)

/-- The sum `a + b` as Go computes it on float64: the exact sum of two finite
values rounded to the nearest float64. -/
def F64.addRounded : F64 → F64 → F64
  | F64.fin a, F64.fin b => F64.fin (F64.round (a + b))
  | a, b => F64.add a b

/-- The field `TotalVolume` over the loop of `GetAggregatedKeyStats`: the
statement `akStats.TotalVolume += keyStats.TotalVolume` of
`AggregatedKeyStats.AggregateKeyStats` for each Key Aggregate in turn, with
the rounding of float64. -/
def foldTotalVolume (totalVolume : F64) (ks : List KeyStats) : F64 :=
  ks.foldl (fun acc k => F64.addRounded acc k.TotalVolume) totalVolume

/-- An empty Key Aggregate but for its total volume. -/
def keyStatsWithVolume (keystem : String) (volume : ℚ) : KeyStats :=
  { NewKeyStats keystem with TotalVolume := F64.fin volume }

/-- The float64 value of the literal `0.1`. -/
def tenth : ℚ := 3602879701896397 / 36028797018963968

/-- The float64 value of the literal `0.2`. -/
def fifth : ℚ := 3602879701896397 / 18014398509481984

/-- The float64 value of the literal `0.3`. -/
def threeTenths : ℚ := 5404319552844595 / 18014398509481984

/-- Three Key Aggregates with total volumes `0.1`, `0.2` and `0.3`. -/
def volumesAscending : List KeyStats :=
  [keyStatsWithVolume "a" tenth, keyStatsWithVolume "b" fifth, keyStatsWithVolume "c" threeTenths]

/-- The same three Key Aggregates in the reverse order. -/
def volumesDescending : List KeyStats :=
  [keyStatsWithVolume "c" threeTenths, keyStatsWithVolume "b" fifth, keyStatsWithVolume "a" tenth]

/-! # Theorems -/

/-! ## Lemmas on `importCounts` -/


theorem lookup_importStep (d : GoMap) (e : Sigma (fun _ : String => Int)) (k : String) :
    (importStep d e).lookup k =
      if k = e.1 then some ((d.lookup k).getD 0 + e.2) else d.lookup k := by
  unfold importStep
  by_cases h : k = e.1
  · subst h
    cases hd : d.lookup e.1 <;> simp [hd]
  · cases hd : d.lookup e.1 <;> simp [h, AList.lookup_insert_ne h]

theorem lookup_foldl_importStep (l : List (Sigma (fun _ : String => Int))) (hl : l.NodupKeys)
    (d : GoMap) (k : String) :
    (l.foldl importStep d).lookup k =
      match l.dlookup k with
      | some v => some ((d.lookup k).getD 0 + v)
      | none => d.lookup k := by
  induction l generalizing d with
  | nil => simp
  | cons e l ih =>
    obtain ⟨ek, ev⟩ := e
    obtain ⟨hnot, hnd⟩ := List.nodupKeys_cons.mp hl
    rw [List.foldl_cons, ih hnd, lookup_importStep]
    by_cases h : k = ek
    · subst h
      have hnone : List.dlookup k l = none := List.dlookup_eq_none.mpr hnot
      simp [hnone, List.dlookup_cons_eq]
    · rw [List.dlookup_cons_ne _ _ h]
      simp [h]

theorem lookup_importCounts (source dest : GoMap) (k : String) :
    (importCounts source dest).lookup k =
      match source.lookup k with
      | some v => some ((dest.lookup k).getD 0 + v)
      | none => dest.lookup k :=
  lookup_foldl_importStep source.entries source.nodupKeys dest k

theorem count_importCounts (source dest : GoMap) (k : String) :
    (importCounts source dest).count k = dest.count k + source.count k := by
  unfold GoMap.count
  rw [lookup_importCounts]
  cases source.lookup k <;> simp

theorem mem_importCounts (source dest : GoMap) (k : String) :
    k ∈ importCounts source dest ↔ k ∈ dest ∨ k ∈ source := by
  simp only [← AList.lookup_isSome]
  rw [lookup_importCounts]
  cases source.lookup k <;> simp

/-! ## float64 arithmetic on finite values -/

namespace F64

@[simp] theorem add_fin (a b : ℚ) : add (fin a) (fin b) = fin (a + b) := rfl

@[simp] theorem mul_fin (a b : ℚ) : mul (fin a) (fin b) = fin (a * b) := rfl

theorem div_fin (a b : ℚ) (h : b ≠ 0) : div (fin a) (fin b) = fin (a / b) := by
  simp [div, h]

@[simp] theorem div_fin_zero (a : ℚ) : div (fin a) (fin 0) = infOfSign a := by
  simp [div]

@[simp] theorem gt_fin (a b : ℚ) : gt (fin a) (fin b) = decide (b < a) := rfl

theorem isFinite_iff (x : F64) : x.IsFinite ↔ ∃ q, x = fin q := by
  cases x <;> simp [IsFinite]

end F64

/-! ## Per-sample merge: counters -/

theorem applySamples_nil (a : KeyStats) : applySamples a [] = a := rfl

theorem applySamples_cons (a : KeyStats) (s : Stats) (l : List Stats) :
    applySamples a (s :: l) = applySamples (a.AggregateStats s) l := rfl

theorem applySamples_append (a : KeyStats) (l₁ l₂ : List Stats) :
    applySamples a (l₁ ++ l₂) = applySamples (applySamples a l₁) l₂ := by
  simp [applySamples]

theorem applySamples_totalRequests (a : KeyStats) (l : List Stats) :
    (applySamples a l).TotalRequests = a.TotalRequests + l.length := by
  induction l generalizing a with
  | nil => simp [applySamples]
  | cons s l ih =>
    rw [applySamples_cons, ih]
    simp only [KeyStats.AggregateStats, List.length_cons]
    push_cast
    ring

theorem applySamples_cacheHits (a : KeyStats) (l : List Stats) :
    (applySamples a l).CacheHits = a.CacheHits + (l.filter (fun s => s.CacheHit)).length := by
  induction l generalizing a with
  | nil => simp [applySamples]
  | cons s l ih =>
    rw [applySamples_cons, ih]
    cases h : s.CacheHit <;> simp [KeyStats.AggregateStats, btoi, h, List.filter_cons]
    ring

/-- C1: applying `N` samples to an empty Key Aggregate gives
`TotalRequests = N` and `CacheHits` equal to the number of cache-hit samples,
hence at most `N`; one application adds exactly one to `TotalRequests`
whatever the aggregate and the sample are. -/
theorem C1_request_count (keystem : String) (samples : List Stats) :
    (applySamples (NewKeyStats keystem) samples).TotalRequests = samples.length ∧
    (applySamples (NewKeyStats keystem) samples).CacheHits
      = (samples.filter (fun s => s.CacheHit)).length ∧
    (applySamples (NewKeyStats keystem) samples).CacheHits ≤ samples.length ∧
    ∀ (a : KeyStats) (s : Stats), (a.AggregateStats s).TotalRequests = a.TotalRequests + 1 := by
  refine ⟨?_, ?_, ?_, fun a s => rfl⟩
  · rw [applySamples_totalRequests]; simp [NewKeyStats, KeyStats.Init]
  · rw [applySamples_cacheHits]; simp [NewKeyStats, KeyStats.Init]
  · rw [applySamples_cacheHits]
    simp only [NewKeyStats, KeyStats.Init, zero_add, Nat.cast_le]
    exact List.length_filter_le _ _

/-- C3: a cache-hit sample leaves `AvgLatency` and both components of
`HighestLatency` as they were. -/
theorem C3_cache_hit_frame (a : KeyStats) (s : Stats) (h : s.CacheHit = true) :
    (a.AggregateStats s).AvgLatency = a.AvgLatency ∧
    (a.AggregateStats s).HighestLatency.Latency = a.HighestLatency.Latency ∧
    (a.AggregateStats s).HighestLatency.TimeStamp = a.HighestLatency.TimeStamp := by
  simp [KeyStats.AggregateStats, h]

/-- Witness of C3 at a sample that is a cache hit with a latency above the
recorded maximum. -/
theorem C3_cache_hit_frame_witness :
    (exampleStats 50 true "t9").CacheHit = true ∧
    ((NewKeyStats "k").AggregateStats (exampleStats 50 true "t9")).AvgLatency
      = (NewKeyStats "k").AvgLatency ∧
    ((NewKeyStats "k").AggregateStats (exampleStats 50 true "t9")).HighestLatency.Latency
      = (NewKeyStats "k").HighestLatency.Latency ∧
    ((NewKeyStats "k").AggregateStats (exampleStats 50 true "t9")).HighestLatency.TimeStamp
      = (NewKeyStats "k").HighestLatency.TimeStamp :=
  ⟨rfl, C3_cache_hit_frame (NewKeyStats "k") (exampleStats 50 true "t9") rfl⟩

/-! ## Per-sample merge: one application -/

theorem lookup_bumpStatus (codes : GoMap) (code k : String) :
    (bumpStatus codes code).lookup k =
      if code ≠ "" ∧ k = code then some ((codes.lookup k).getD 0 + 1) else codes.lookup k := by
  unfold bumpStatus
  by_cases hc : code = ""
  · simp [hc]
  · by_cases hk : k = code
    · subst hk
      cases hd : codes.lookup k <;> simp [hc, hd]
    · cases hd : codes.lookup code <;> simp [hc, hk, AList.lookup_insert_ne hk]

/-- C5: one application of `AggregateStats` to an aggregate with
`n = TotalRequests ≥ 0`: item and volume totals add, the two running means
become `(mean * n + x) / (n + 1)`, `BoxTypes` is the key-wise sum, the count
under a non-empty status code grows by one (nothing else changes, and an
empty status code changes nothing), and each error counter grows by one
exactly when the flag of the sample is set. -/
theorem C5_single_application (a : KeyStats) (s : Stats) (hn : 0 ≤ a.TotalRequests) :
    (a.AggregateStats s).TotalItems = a.TotalItems + s.TotalItems ∧
    (a.AggregateStats s).TotalVolume = F64.add a.TotalVolume s.TotalVolume ∧
    (∀ v w : ℚ, a.TotalVolume = F64.fin v → s.TotalVolume = F64.fin w →
      (a.AggregateStats s).TotalVolume = F64.fin (v + w)) ∧
    (a.AggregateStats s).AvgItemsPerPack =
      F64.div (F64.add (F64.mul a.AvgItemsPerPack (F64.ofInt a.TotalRequests))
        (F64.ofInt s.TotalItems)) (F64.ofInt (a.TotalRequests + 1)) ∧
    (∀ q : ℚ, a.AvgItemsPerPack = F64.fin q →
      (a.AggregateStats s).AvgItemsPerPack =
        F64.fin ((q * (a.TotalRequests : ℚ) + (s.TotalItems : ℚ)) / ((a.TotalRequests : ℚ) + 1))) ∧
    (a.AggregateStats s).AvgVolumeUtilization =
      F64.div (F64.add (F64.mul a.AvgVolumeUtilization (F64.ofInt a.TotalRequests))
        s.VolumeUtilization) (F64.ofInt (a.TotalRequests + 1)) ∧
    (∀ q u : ℚ, a.AvgVolumeUtilization = F64.fin q → s.VolumeUtilization = F64.fin u →
      (a.AggregateStats s).AvgVolumeUtilization =
        F64.fin ((q * (a.TotalRequests : ℚ) + u) / ((a.TotalRequests : ℚ) + 1))) ∧
    (∀ k, (a.AggregateStats s).BoxTypes.count k = a.BoxTypes.count k + s.BoxTypes.count k) ∧
    (∀ k, k ∈ (a.AggregateStats s).BoxTypes ↔ k ∈ a.BoxTypes ∨ k ∈ s.BoxTypes) ∧
    (s.StatusCode ≠ "" →
      (a.AggregateStats s).StatusCodes.count s.StatusCode
        = a.StatusCodes.count s.StatusCode + 1 ∧
      s.StatusCode ∈ (a.AggregateStats s).StatusCodes ∧
      ∀ k, k ≠ s.StatusCode →
        (a.AggregateStats s).StatusCodes.lookup k = a.StatusCodes.lookup k) ∧
    (s.StatusCode = "" → (a.AggregateStats s).StatusCodes = a.StatusCodes) ∧
    (a.AggregateStats s).RequestErrorCount
      = a.RequestErrorCount + (if s.RequestError = true then 1 else 0) ∧
    (a.AggregateStats s).ErrorResponseCount
      = a.ErrorResponseCount + (if s.ErrorResponse = true then 1 else 0) := by
  have hne : ((a.TotalRequests : ℚ) + 1) ≠ 0 := by
    have : (0 : ℚ) ≤ (a.TotalRequests : ℚ) := by exact_mod_cast hn
    linarith
  refine ⟨rfl, rfl, ?_, ?_, ?_, ?_, ?_, ?_, ?_, ?_, ?_, rfl, rfl⟩
  · intro v w hv hw
    simp [KeyStats.AggregateStats, hv, hw]
  · simp [KeyStats.AggregateStats, F64.ofInt]
  · intro q hq
    simp [KeyStats.AggregateStats, hq, F64.ofInt, F64.div_fin _ _ hne]
  · simp [KeyStats.AggregateStats, F64.ofInt]
  · intro q u hq hu
    simp [KeyStats.AggregateStats, hq, hu, F64.ofInt, F64.div_fin _ _ hne]
  · intro k
    exact count_importCounts _ _ k
  · intro k
    exact mem_importCounts _ _ k
  · intro hc
    refine ⟨?_, ?_, ?_⟩
    · simp [KeyStats.AggregateStats, GoMap.count, lookup_bumpStatus, hc]
    · rw [← AList.lookup_isSome]
      simp [KeyStats.AggregateStats, lookup_bumpStatus, hc]
    · intro k hk
      simp [KeyStats.AggregateStats, lookup_bumpStatus, hk]
  · intro hc
    simp [KeyStats.AggregateStats, bumpStatus, hc]

/-- Witness of C5: the second application of the example sample. -/
theorem C5_single_application_witness :
    0 ≤ ((NewKeyStats "k").AggregateStats (exampleStats 5 false "t1")).TotalRequests ∧
    (((NewKeyStats "k").AggregateStats (exampleStats 5 false "t1")).AggregateStats
        (exampleStats 7 false "t2")).TotalItems
      = ((NewKeyStats "k").AggregateStats (exampleStats 5 false "t1")).TotalItems
        + (exampleStats 7 false "t2").TotalItems :=
  ⟨by decide,
   (C5_single_application ((NewKeyStats "k").AggregateStats (exampleStats 5 false "t1"))
      (exampleStats 7 false "t2") (by decide)).1⟩

/-! ## Per-sample merge: mean latency -/

theorem F64.fin_toRat {x : F64} (h : x.IsFinite) : F64.fin x.toRat = x := by
  cases x <;> simp_all [F64.IsFinite, F64.toRat]

theorem nonCacheHits_cons_hit (s : Stats) (l : List Stats) (h : s.CacheHit = true) :
    nonCacheHits (s :: l) = nonCacheHits l := by
  simp [nonCacheHits, h]

theorem nonCacheHits_cons_miss (s : Stats) (l : List Stats) (h : s.CacheHit = false) :
    nonCacheHits (s :: l) = s :: nonCacheHits l := by
  simp [nonCacheHits, h]

/-- The invariant behind the running mean: the mean times the number of
non-cache-hit samples is the sum of their latencies. -/
theorem applySamples_avgLatency (l : List Stats) :
    ∀ (a : KeyStats) (q : ℚ), a.AvgLatency = F64.fin q → 0 ≤ a.TotalRequests - a.CacheHits →
      (∀ s ∈ l, s.CacheHit = false → s.Latency.IsFinite) →
      ∃ q' : ℚ, (applySamples a l).AvgLatency = F64.fin q' ∧
        q' * (((a.TotalRequests - a.CacheHits : Int) : ℚ) + ((nonCacheHits l).length : ℚ))
          = q * ((a.TotalRequests - a.CacheHits : Int) : ℚ) + latencySum l := by
  induction l with
  | nil =>
    intro a q ha _ _
    exact ⟨q, ha, by simp [latencySum, nonCacheHits]⟩
  | cons s l ih =>
    intro a q ha hk hfin
    have hfin' : ∀ t ∈ l, t.CacheHit = false → t.Latency.IsFinite :=
      fun t ht => hfin t (List.mem_cons_of_mem _ ht)
    rw [applySamples_cons]
    cases hs : s.CacheHit with
    | true =>
      have h1 : (a.AggregateStats s).AvgLatency = F64.fin q := by
        simp [KeyStats.AggregateStats, hs, ha]
      have h2 : (a.AggregateStats s).TotalRequests - (a.AggregateStats s).CacheHits
          = a.TotalRequests - a.CacheHits := by
        simp [KeyStats.AggregateStats, hs, btoi]
      obtain ⟨q', hq', he⟩ := ih (a.AggregateStats s) q h1 (by rw [h2]; exact hk) hfin'
      refine ⟨q', hq', ?_⟩
      rw [h2] at he
      simpa [latencySum, nonCacheHits_cons_hit s l hs] using he
    | false =>
      obtain ⟨x, hx⟩ := (F64.isFinite_iff _).mp (hfin s (List.mem_cons_self _ _) hs)
      have hk' : (0 : ℚ) ≤ ((a.TotalRequests - a.CacheHits : Int) : ℚ) := by exact_mod_cast hk
      have hne : (((a.TotalRequests - a.CacheHits + 1 : Int)) : ℚ) ≠ 0 := by
        push_cast; push_cast at hk'; linarith
      have h1 : (a.AggregateStats s).AvgLatency
          = F64.fin ((q * ((a.TotalRequests - a.CacheHits : Int) : ℚ) + x)
              / ((a.TotalRequests - a.CacheHits + 1 : Int) : ℚ)) := by
        simp only [KeyStats.AggregateStats, hs, ha, hx, F64.ofInt, Bool.not_false, if_true,
          F64.mul_fin, F64.add_fin]
        rw [F64.div_fin _ _ hne]
      have h2 : (a.AggregateStats s).TotalRequests - (a.AggregateStats s).CacheHits
          = a.TotalRequests - a.CacheHits + 1 := by
        simp only [KeyStats.AggregateStats, hs, btoi]
        simp only [Bool.false_eq_true, if_false]
        ring
      obtain ⟨q', hq', he⟩ := ih (a.AggregateStats s) _ h1 (by rw [h2]; omega) hfin'
      refine ⟨q', hq', ?_⟩
      rw [h2] at he
      have hsum : latencySum (s :: l) = x + latencySum l := by
        simp [latencySum, nonCacheHits_cons_miss s l hs, hx, F64.toRat]
      rw [hsum, nonCacheHits_cons_miss s l hs, List.length_cons]
      rw [div_mul_cancel₀ _ hne] at he
      push_cast at he ⊢
      linarith

/-- C2: over any sequence of samples containing a non-cache-hit sample,
applied to an empty Key Aggregate, `AvgLatency` is the sum of the latencies
of the non-cache-hit samples divided by their number, wherever cache-hit
samples are interleaved. -/
theorem C2_avg_latency (keystem : String) (samples : List Stats)
    (hfin : ∀ s ∈ samples, s.CacheHit = false → s.Latency.IsFinite)
    (hex : ∃ s ∈ samples, s.CacheHit = false) :
    (applySamples (NewKeyStats keystem) samples).AvgLatency
      = F64.fin (latencySum samples / ((nonCacheHits samples).length : ℚ)) := by
  obtain ⟨q', hq', he⟩ :=
    applySamples_avgLatency samples (NewKeyStats keystem) 0 rfl (by simp [NewKeyStats, KeyStats.Init]) hfin
  have hlen : ((nonCacheHits samples).length : ℚ) ≠ 0 := by
    obtain ⟨s, hs, hc⟩ := hex
    have hmem : s ∈ nonCacheHits samples := by simp [nonCacheHits, hs, hc]
    have : 0 < (nonCacheHits samples).length := List.length_pos_of_mem hmem
    exact_mod_cast this.ne'
  have h0 : (((NewKeyStats keystem).TotalRequests - (NewKeyStats keystem).CacheHits : Int) : ℚ)
      = 0 := by simp [NewKeyStats, KeyStats.Init]
  rw [h0] at he
  rw [hq']
  congr 1
  rw [eq_div_iff hlen]
  linarith

/-- Witness of C2: latencies `[5, 20, 3]`, none a cache hit, with one
cache-hit sample interleaved: the mean is `(5 + 20 + 3) / 3`. -/
theorem C2_avg_latency_witness :
    (applySamples (NewKeyStats "k")
        [exampleStats 5 false "t1", exampleStats 20 false "t2", exampleStats 99 true "t3",
         exampleStats 3 false "t4"]).AvgLatency
      = F64.fin ((5 + 20 + 3) / 3) := by
  have h := C2_avg_latency "k"
    [exampleStats 5 false "t1", exampleStats 20 false "t2", exampleStats 99 true "t3",
     exampleStats 3 false "t4"]
    (by decide)
    ⟨exampleStats 5 false "t1", by simp, rfl⟩
  rw [h]
  norm_num [latencySum, nonCacheHits, exampleStats, F64.toRat]

/-! ## Running strict maximum of a fold -/

/-- A fold that keeps a strict running maximum `key` together with a `tag`
of the element that set it: either no element exceeded the initial maximum,
or the list splits at the first element attaining the final maximum. -/
theorem foldl_strict_max {σ α τ : Type} (step : σ → α → σ) (key : σ → F64) (tag : σ → τ)
    (val : α → Option ℚ) (etag : α → τ) (l : List α)
    (hstep : ∀ (a : σ) (h : ℚ), key a = F64.fin h → ∀ s ∈ l,
      (∀ y, val s = some y → h < y → key (step a s) = F64.fin y ∧ tag (step a s) = etag s) ∧
      ((∀ y, val s = some y → y ≤ h) → key (step a s) = key a ∧ tag (step a s) = tag a)) :
    ∀ (a : σ) (h : ℚ), key a = F64.fin h →
      (key (l.foldl step a) = F64.fin h ∧ tag (l.foldl step a) = tag a ∧
        ∀ t ∈ l, ∀ y, val t = some y → y ≤ h) ∨
      (∃ pre s post x, l = pre ++ s :: post ∧ val s = some x ∧ h < x ∧
        key (l.foldl step a) = F64.fin x ∧ tag (l.foldl step a) = etag s ∧
        (∀ t ∈ pre, ∀ y, val t = some y → y < x) ∧
        (∀ t ∈ post, ∀ y, val t = some y → y ≤ x)) := by
  induction l with
  | nil =>
    intro a h ha
    exact Or.inl ⟨ha, rfl, by simp⟩
  | cons s l ih =>
    intro a h ha
    have hstep' : ∀ (a : σ) (h : ℚ), key a = F64.fin h → ∀ s ∈ l,
        (∀ y, val s = some y → h < y → key (step a s) = F64.fin y ∧ tag (step a s) = etag s) ∧
        ((∀ y, val s = some y → y ≤ h) → key (step a s) = key a ∧ tag (step a s) = tag a) :=
      fun a h ha t ht => hstep a h ha t (List.mem_cons_of_mem _ ht)
    obtain ⟨hup, hkeep⟩ := hstep a h ha s (List.mem_cons_self _ _)
    rw [List.foldl_cons]
    by_cases hbig : ∃ y, val s = some y ∧ h < y
    · obtain ⟨y, hy, hlt⟩ := hbig
      obtain ⟨hk, ht⟩ := hup y hy hlt
      rcases ih hstep' (step a s) y hk with ⟨h1, h2, h3⟩ | ⟨pre, t, post, x, hl, hv, hx, h1, h2, h3, h4⟩
      · exact Or.inr ⟨[], s, l, y, rfl, hy, hlt, h1, h2.trans ht, by simp, h3⟩
      · refine Or.inr ⟨s :: pre, t, post, x, by simp [hl], hv, hlt.trans hx, h1, h2, ?_, h4⟩
        intro u hu z hz
        rcases List.mem_cons.mp hu with rfl | hu
        · rw [hy] at hz
          cases hz
          exact hx
        · exact h3 u hu z hz
    · have hsmall : ∀ y, val s = some y → y ≤ h := by
        intro y hy
        by_contra hc
        exact hbig ⟨y, hy, not_le.mp hc⟩
      obtain ⟨hk, ht⟩ := hkeep hsmall
      rcases ih hstep' (step a s) h (hk.trans ha) with
        ⟨h1, h2, h3⟩ | ⟨pre, t, post, x, hl, hv, hx, h1, h2, h3, h4⟩
      · refine Or.inl ⟨h1, h2.trans ht, ?_⟩
        intro u hu z hz
        rcases List.mem_cons.mp hu with rfl | hu
        · exact hsmall z hz
        · exact h3 u hu z hz
      · refine Or.inr ⟨s :: pre, t, post, x, by simp [hl], hv, hx, h1, h2, ?_, h4⟩
        intro u hu z hz
        rcases List.mem_cons.mp hu with rfl | hu
        · exact lt_of_le_of_lt (hsmall z hz) hx
        · exact h3 u hu z hz

/-! ## Per-sample merge: highest latency -/

/-- C4: over any sequence of samples in which some non-cache-hit sample has
a positive latency, applied to an empty Key Aggregate, `HighestLatency` is the
latency and timestamp of the earliest non-cache-hit sample whose latency is
the maximum over the non-cache-hit samples: the sequence splits at that
sample, the non-cache-hit samples before it are strictly below it and those
after it are not above it. -/
theorem C4_highest_latency (keystem : String) (samples : List Stats)
    (hfin : ∀ s ∈ samples, s.CacheHit = false → s.Latency.IsFinite)
    (hpos : ∃ s ∈ samples, s.CacheHit = false ∧ 0 < s.Latency.toRat) :
    ∃ pre s post, samples = pre ++ s :: post ∧ s.CacheHit = false ∧
      (applySamples (NewKeyStats keystem) samples).HighestLatency.Latency = s.Latency ∧
      (applySamples (NewKeyStats keystem) samples).HighestLatency.TimeStamp = s.TimeStamp ∧
      (∀ t ∈ pre, t.CacheHit = false → t.Latency.toRat < s.Latency.toRat) ∧
      (∀ t ∈ post, t.CacheHit = false → t.Latency.toRat ≤ s.Latency.toRat) := by
  have key := foldl_strict_max KeyStats.AggregateStats (fun a => a.HighestLatency.Latency)
    (fun a => a.HighestLatency.TimeStamp)
    (fun s => if s.CacheHit then none else some s.Latency.toRat) (fun s => s.TimeStamp) samples
    (by
      intro a h ha s hs
      cases hc : s.CacheHit with
      | true => simp [KeyStats.AggregateStats, hc]
      | false =>
        obtain ⟨x, hx⟩ := (F64.isFinite_iff _).mp (hfin s hs hc)
        simp only [] at ha
        constructor
        · intro y hy hlt
          simp only [hc, Bool.false_eq_true, if_false, Option.some.injEq, hx, F64.toRat] at hy
          subst hy
          simp [KeyStats.AggregateStats, hc, hx, ha, hlt]
        · intro hle
          have hxh : x ≤ h := hle x (by simp [hc, hx, F64.toRat])
          simp [KeyStats.AggregateStats, hc, hx, ha, not_lt.mpr hxh])
    (NewKeyStats keystem) 0 rfl
  rcases key with ⟨_, _, h3⟩ | ⟨pre, s, post, x, hl, hv, hx, h1, h2, h3, h4⟩
  · obtain ⟨s, hs, hc, hp⟩ := hpos
    have := h3 s hs s.Latency.toRat (by simp [hc])
    exact absurd hp (not_lt.mpr this)
  · have hc : s.CacheHit = false := by
      cases hc : s.CacheHit with
      | true => simp [hc] at hv
      | false => rfl
    have hsx : s.Latency.toRat = x := by simpa [hc] using hv
    have hsmem : s ∈ samples := by rw [hl]; simp
    have hsfin : F64.fin x = s.Latency := by
      rw [← hsx]; exact F64.fin_toRat (hfin s hsmem hc)
    refine ⟨pre, s, post, hl, hc, ?_, h2, ?_, ?_⟩
    · rw [← hsfin]; exact h1
    · intro t ht htc
      rw [hsx]
      exact h3 t ht _ (by simp [htc])
    · intro t ht htc
      rw [hsx]
      exact h4 t ht _ (by simp [htc])

/-- Witness of C4: latencies `[5, 20, 3]`, none a cache hit: the highest
latency is `20`, with the timestamp of the second sample. -/
theorem C4_highest_latency_witness :
    (∃ pre s post,
      [exampleStats 5 false "t1", exampleStats 20 false "t2", exampleStats 3 false "t3"]
        = pre ++ s :: post ∧ s.CacheHit = false ∧
      (applySamples (NewKeyStats "k")
        [exampleStats 5 false "t1", exampleStats 20 false "t2",
         exampleStats 3 false "t3"]).HighestLatency.Latency = s.Latency ∧
      (applySamples (NewKeyStats "k")
        [exampleStats 5 false "t1", exampleStats 20 false "t2",
         exampleStats 3 false "t3"]).HighestLatency.TimeStamp = s.TimeStamp ∧
      (∀ t ∈ pre, t.CacheHit = false → t.Latency.toRat < s.Latency.toRat) ∧
      (∀ t ∈ post, t.CacheHit = false → t.Latency.toRat ≤ s.Latency.toRat)) ∧
    (applySamples (NewKeyStats "k")
        [exampleStats 5 false "t1", exampleStats 20 false "t2",
         exampleStats 3 false "t3"]).HighestLatency
      = { Latency := F64.fin 20, TimeStamp := "t2" } :=
  ⟨C4_highest_latency "k"
      [exampleStats 5 false "t1", exampleStats 20 false "t2", exampleStats 3 false "t3"]
      (by decide) ⟨exampleStats 5 false "t1", by simp, rfl, by simp [exampleStats, F64.toRat]⟩,
   by decide⟩

/-! ## float64 addition -/

namespace F64

theorem add_swap (a b : F64) : add a b = add b a := by
  cases a <;> cases b <;> simp [add, add_comm]

theorem add_shift (a b c : F64) : add (add a b) c = add a (add b c) := by
  cases a <;> cases b <;> cases c <;> simp [add, add_assoc]

theorem zero_add_eq (a : F64) : add (fin 0) a = a := by
  cases a <;> simp [add]

theorem add_zero_eq (a : F64) : add a (fin 0) = a := by
  cases a <;> simp [add]

theorem sum_cons (a : F64) (l : List F64) : sum (a :: l) = add a (sum l) := rfl

theorem sum_perm {l₁ l₂ : List F64} (p : l₁.Perm l₂) : sum l₁ = sum l₂ := by
  induction p with
  | nil => rfl
  | cons a _ ih => rw [sum_cons, sum_cons, ih]
  | swap a b l =>
    rw [sum_cons, sum_cons, sum_cons, sum_cons, ← add_shift, ← add_shift, add_swap a b]
  | trans _ _ ih₁ ih₂ => exact ih₁.trans ih₂

theorem sum_finite (l : List F64) (h : ∀ x ∈ l, x.IsFinite) :
    sum l = fin (l.map toRat).sum := by
  induction l with
  | nil => rfl
  | cons a l ih =>
    obtain ⟨q, rfl⟩ := (isFinite_iff a).mp (h a (List.mem_cons_self _ _))
    rw [sum_cons, ih (fun x hx => h x (List.mem_cons_of_mem _ hx))]
    simp [toRat]

end F64


/-! ## Cross-key merge: totals and histograms -/

theorem foldKeyStats_nil (x : AggregatedKeyStats) : foldKeyStats x [] = x := rfl

theorem foldKeyStats_cons (x : AggregatedKeyStats) (k : KeyStats) (ks : List KeyStats) :
    foldKeyStats x (k :: ks) = foldKeyStats (x.AggregateKeyStats k) ks := rfl

theorem foldKeyStats_counters (ks : List KeyStats) : ∀ x : AggregatedKeyStats,
    (foldKeyStats x ks).TotalItems = x.TotalItems + (ks.map (fun k => k.TotalItems)).sum ∧
    (foldKeyStats x ks).TotalRequests
      = x.TotalRequests + (ks.map (fun k => k.TotalRequests)).sum ∧
    (foldKeyStats x ks).CacheHits = x.CacheHits + (ks.map (fun k => k.CacheHits)).sum ∧
    (foldKeyStats x ks).RequestErrorCount
      = x.RequestErrorCount + (ks.map (fun k => k.RequestErrorCount)).sum ∧
    (foldKeyStats x ks).ErrorResponseCount
      = x.ErrorResponseCount + (ks.map (fun k => k.ErrorResponseCount)).sum := by
  induction ks with
  | nil => intro x; simp [foldKeyStats]
  | cons k ks ih =>
    intro x
    obtain ⟨h1, h2, h3, h4, h5⟩ := ih (x.AggregateKeyStats k)
    rw [foldKeyStats_cons, h1, h2, h3, h4, h5]
    simp only [AggregatedKeyStats.AggregateKeyStats, List.map_cons, List.sum_cons]
    refine ⟨?_, ?_, ?_, ?_, ?_⟩ <;> ring

theorem foldKeyStats_totalVolume (ks : List KeyStats) : ∀ x : AggregatedKeyStats,
    (foldKeyStats x ks).TotalVolume
      = F64.add x.TotalVolume (F64.sum (ks.map (fun k => k.TotalVolume))) := by
  induction ks with
  | nil => intro x; simp [foldKeyStats, F64.sum, F64.add_zero_eq]
  | cons k ks ih =>
    intro x
    rw [foldKeyStats_cons, ih]
    simp only [AggregatedKeyStats.AggregateKeyStats, List.map_cons, F64.sum_cons, F64.add_shift]

theorem foldKeyStats_boxTypes_count (key : String) (ks : List KeyStats) :
    ∀ x : AggregatedKeyStats, (foldKeyStats x ks).BoxTypes.count key
      = x.BoxTypes.count key + (ks.map (fun k => k.BoxTypes.count key)).sum := by
  induction ks with
  | nil => intro x; simp [foldKeyStats]
  | cons k ks ih =>
    intro x
    rw [foldKeyStats_cons, ih]
    simp only [AggregatedKeyStats.AggregateKeyStats, List.map_cons, List.sum_cons,
      count_importCounts]
    ring

theorem foldKeyStats_boxTypes_mem (key : String) (ks : List KeyStats) :
    ∀ x : AggregatedKeyStats, key ∈ (foldKeyStats x ks).BoxTypes
      ↔ key ∈ x.BoxTypes ∨ ∃ k ∈ ks, key ∈ k.BoxTypes := by
  induction ks with
  | nil => intro x; simp [foldKeyStats]
  | cons k ks ih =>
    intro x
    rw [foldKeyStats_cons, ih]
    simp only [AggregatedKeyStats.AggregateKeyStats, mem_importCounts, List.mem_cons,
      exists_eq_or_imp, or_assoc]

theorem foldKeyStats_statusCodes_count (key : String) (ks : List KeyStats) :
    ∀ x : AggregatedKeyStats, (foldKeyStats x ks).StatusCodes.count key
      = x.StatusCodes.count key + (ks.map (fun k => k.StatusCodes.count key)).sum := by
  induction ks with
  | nil => intro x; simp [foldKeyStats]
  | cons k ks ih =>
    intro x
    rw [foldKeyStats_cons, ih]
    simp only [AggregatedKeyStats.AggregateKeyStats, List.map_cons, List.sum_cons,
      count_importCounts]
    ring

theorem foldKeyStats_statusCodes_mem (key : String) (ks : List KeyStats) :
    ∀ x : AggregatedKeyStats, key ∈ (foldKeyStats x ks).StatusCodes
      ↔ key ∈ x.StatusCodes ∨ ∃ k ∈ ks, key ∈ k.StatusCodes := by
  induction ks with
  | nil => intro x; simp [foldKeyStats]
  | cons k ks ih =>
    intro x
    rw [foldKeyStats_cons, ih]
    simp only [AggregatedKeyStats.AggregateKeyStats, mem_importCounts, List.mem_cons,
      exists_eq_or_imp, or_assoc]

/-- A map is determined by its key set and its counts. -/
theorem lookup_eq_of_count (m : GoMap) (key : String) :
    m.lookup key = if key ∈ m then some (m.count key) else none := by
  unfold GoMap.count
  by_cases h : key ∈ m
  · obtain ⟨v, hv⟩ := Option.isSome_iff_exists.mp (AList.lookup_isSome.mpr h)
    simp [h, hv]
  · simp [h, AList.lookup_eq_none.mpr h]

theorem not_mem_empty (key : String) : key ∉ GoMap.empty := by
  simp [GoMap.empty]

theorem count_empty (key : String) : GoMap.empty.count key = 0 := by
  simp [GoMap.count, GoMap.empty]

theorem examplePerm : exampleKeys.Perm exampleKeysRotated :=
  (List.perm_append_comm :
    List.Perm ([exampleKeyStats "a" 3 1 2 5 9, exampleKeyStats "b" 4 0 1 6 7]
        ++ [exampleKeyStats "c" 1 1 0 0 0])
      ([exampleKeyStats "c" 1 1 0 0 0]
        ++ [exampleKeyStats "a" 3 1 2 5 9, exampleKeyStats "b" 4 0 1 6 7]))

/-- C6 (amended): folding a list of Key Aggregates into a fresh Cross-Key
Aggregate gives, for the integer totals `TotalItems`, `TotalRequests`,
`CacheHits`, `RequestErrorCount` and `ErrorResponseCount`, the sum over the
list, and for `BoxTypes` and `StatusCodes` the key-wise sum over the list;
folding any permutation of the list gives the same values (the same count
under every key for the two histograms). For `TotalVolume` this holds in
exact arithmetic only, which is what `F64.add` and `foldKeyStats` compute:
there it is the sum over the list and the same for every permutation. With
the rounding of float64 the value depends on the order of the fold
(`foldTotalVolume`). -/
theorem C6_fold_order_independent (ks ks' : List KeyStats) (hperm : ks.Perm ks') :
    ((foldKeyStats NewAggregatedKeyStats ks).TotalItems = (ks.map (fun k => k.TotalItems)).sum ∧
     (foldKeyStats NewAggregatedKeyStats ks).TotalVolume
        = F64.sum (ks.map (fun k => k.TotalVolume)) ∧
     (foldKeyStats NewAggregatedKeyStats ks).TotalRequests
        = (ks.map (fun k => k.TotalRequests)).sum ∧
     (foldKeyStats NewAggregatedKeyStats ks).CacheHits = (ks.map (fun k => k.CacheHits)).sum ∧
     (foldKeyStats NewAggregatedKeyStats ks).RequestErrorCount
        = (ks.map (fun k => k.RequestErrorCount)).sum ∧
     (foldKeyStats NewAggregatedKeyStats ks).ErrorResponseCount
        = (ks.map (fun k => k.ErrorResponseCount)).sum ∧
     (∀ key, (foldKeyStats NewAggregatedKeyStats ks).BoxTypes.count key
        = (ks.map (fun k => k.BoxTypes.count key)).sum) ∧
     (∀ key, key ∈ (foldKeyStats NewAggregatedKeyStats ks).BoxTypes
        ↔ ∃ k ∈ ks, key ∈ k.BoxTypes) ∧
     (∀ key, (foldKeyStats NewAggregatedKeyStats ks).StatusCodes.count key
        = (ks.map (fun k => k.StatusCodes.count key)).sum) ∧
     (∀ key, key ∈ (foldKeyStats NewAggregatedKeyStats ks).StatusCodes
        ↔ ∃ k ∈ ks, key ∈ k.StatusCodes)) ∧
    ((foldKeyStats NewAggregatedKeyStats ks).TotalItems
        = (foldKeyStats NewAggregatedKeyStats ks').TotalItems ∧
     (foldKeyStats NewAggregatedKeyStats ks).TotalVolume
        = (foldKeyStats NewAggregatedKeyStats ks').TotalVolume ∧
     (foldKeyStats NewAggregatedKeyStats ks).TotalRequests
        = (foldKeyStats NewAggregatedKeyStats ks').TotalRequests ∧
     (foldKeyStats NewAggregatedKeyStats ks).CacheHits
        = (foldKeyStats NewAggregatedKeyStats ks').CacheHits ∧
     (foldKeyStats NewAggregatedKeyStats ks).RequestErrorCount
        = (foldKeyStats NewAggregatedKeyStats ks').RequestErrorCount ∧
     (foldKeyStats NewAggregatedKeyStats ks).ErrorResponseCount
        = (foldKeyStats NewAggregatedKeyStats ks').ErrorResponseCount ∧
     (∀ key, (foldKeyStats NewAggregatedKeyStats ks).BoxTypes.lookup key
        = (foldKeyStats NewAggregatedKeyStats ks').BoxTypes.lookup key) ∧
     (∀ key, (foldKeyStats NewAggregatedKeyStats ks).StatusCodes.lookup key
        = (foldKeyStats NewAggregatedKeyStats ks').StatusCodes.lookup key)) := by
  have sums : ∀ l : List KeyStats,
      (foldKeyStats NewAggregatedKeyStats l).TotalItems = (l.map (fun k => k.TotalItems)).sum ∧
      (foldKeyStats NewAggregatedKeyStats l).TotalVolume
        = F64.sum (l.map (fun k => k.TotalVolume)) ∧
      (foldKeyStats NewAggregatedKeyStats l).TotalRequests
        = (l.map (fun k => k.TotalRequests)).sum ∧
      (foldKeyStats NewAggregatedKeyStats l).CacheHits = (l.map (fun k => k.CacheHits)).sum ∧
      (foldKeyStats NewAggregatedKeyStats l).RequestErrorCount
        = (l.map (fun k => k.RequestErrorCount)).sum ∧
      (foldKeyStats NewAggregatedKeyStats l).ErrorResponseCount
        = (l.map (fun k => k.ErrorResponseCount)).sum ∧
      (∀ key, (foldKeyStats NewAggregatedKeyStats l).BoxTypes.count key
        = (l.map (fun k => k.BoxTypes.count key)).sum) ∧
      (∀ key, key ∈ (foldKeyStats NewAggregatedKeyStats l).BoxTypes
        ↔ ∃ k ∈ l, key ∈ k.BoxTypes) ∧
      (∀ key, (foldKeyStats NewAggregatedKeyStats l).StatusCodes.count key
        = (l.map (fun k => k.StatusCodes.count key)).sum) ∧
      (∀ key, key ∈ (foldKeyStats NewAggregatedKeyStats l).StatusCodes
        ↔ ∃ k ∈ l, key ∈ k.StatusCodes) := by
    intro l
    obtain ⟨h1, h2, h3, h4, h5⟩ := foldKeyStats_counters l NewAggregatedKeyStats
    refine ⟨?_, ?_, ?_, ?_, ?_, ?_, ?_, ?_, ?_, ?_⟩
    · rw [h1]; simp [NewAggregatedKeyStats]
    · rw [foldKeyStats_totalVolume]; simp [NewAggregatedKeyStats, F64.zero_add_eq]
    · rw [h2]; simp [NewAggregatedKeyStats]
    · rw [h3]; simp [NewAggregatedKeyStats]
    · rw [h4]; simp [NewAggregatedKeyStats]
    · rw [h5]; simp [NewAggregatedKeyStats]
    · intro key
      rw [foldKeyStats_boxTypes_count]; simp [NewAggregatedKeyStats, count_empty]
    · intro key
      rw [foldKeyStats_boxTypes_mem]; simp [NewAggregatedKeyStats, not_mem_empty]
    · intro key
      rw [foldKeyStats_statusCodes_count]; simp [NewAggregatedKeyStats, count_empty]
    · intro key
      rw [foldKeyStats_statusCodes_mem]; simp [NewAggregatedKeyStats, not_mem_empty]
  obtain ⟨a1, a2, a3, a4, a5, a6, a7, a8, a9, a10⟩ := sums ks
  obtain ⟨b1, b2, b3, b4, b5, b6, b7, b8, b9, b10⟩ := sums ks'
  refine ⟨sums ks, ?_, ?_, ?_, ?_, ?_, ?_, ?_, ?_⟩
  · rw [a1, b1]; exact (hperm.map _).sum_eq
  · rw [a2, b2]; exact F64.sum_perm (hperm.map _)
  · rw [a3, b3]; exact (hperm.map _).sum_eq
  · rw [a4, b4]; exact (hperm.map _).sum_eq
  · rw [a5, b5]; exact (hperm.map _).sum_eq
  · rw [a6, b6]; exact (hperm.map _).sum_eq
  · intro key
    have hm : key ∈ (foldKeyStats NewAggregatedKeyStats ks).BoxTypes
        ↔ key ∈ (foldKeyStats NewAggregatedKeyStats ks').BoxTypes := by
      rw [a8, b8]
      exact ⟨fun ⟨k, hk, h⟩ => ⟨k, hperm.mem_iff.mp hk, h⟩,
        fun ⟨k, hk, h⟩ => ⟨k, hperm.mem_iff.mpr hk, h⟩⟩
    rw [lookup_eq_of_count, lookup_eq_of_count _ key, a7, b7, (hperm.map _).sum_eq]
    simp only [hm]
  · intro key
    have hm : key ∈ (foldKeyStats NewAggregatedKeyStats ks).StatusCodes
        ↔ key ∈ (foldKeyStats NewAggregatedKeyStats ks').StatusCodes := by
      rw [a10, b10]
      exact ⟨fun ⟨k, hk, h⟩ => ⟨k, hperm.mem_iff.mp hk, h⟩,
        fun ⟨k, hk, h⟩ => ⟨k, hperm.mem_iff.mpr hk, h⟩⟩
    rw [lookup_eq_of_count, lookup_eq_of_count _ key, a9, b9, (hperm.map _).sum_eq]
    simp only [hm]

/-- Witness of C6: three Key Aggregates folded in two different orders give
the same request total. -/
theorem C6_fold_order_independent_witness :
    exampleKeys.Perm exampleKeysRotated ∧
    (foldKeyStats NewAggregatedKeyStats exampleKeys).TotalRequests
      = (foldKeyStats NewAggregatedKeyStats exampleKeysRotated).TotalRequests :=
  ⟨examplePerm, (C6_fold_order_independent exampleKeys exampleKeysRotated examplePerm).2.2.2.1⟩

/-! ## Cross-key merge: weighted means -/

/-- C7: folding two Key Aggregates with `p1 > 0` and `p2 > 0` requests and
finite means into a fresh Cross-Key Aggregate gives the weighted means
`(K1.mean * p1 + K2.mean * p2) / (p1 + p2)` for items per pack and for
volume utilisation, in exact arithmetic. -/
theorem C7_weighted_means (k1 k2 : KeyStats) (a1 a2 u1 u2 : ℚ)
    (hp1 : 0 < k1.TotalRequests) (hp2 : 0 < k2.TotalRequests)
    (ha1 : k1.AvgItemsPerPack = F64.fin a1) (ha2 : k2.AvgItemsPerPack = F64.fin a2)
    (hu1 : k1.AvgVolumeUtilization = F64.fin u1) (hu2 : k2.AvgVolumeUtilization = F64.fin u2) :
    (foldKeyStats NewAggregatedKeyStats [k1, k2]).AvgItemsPerPack
      = F64.fin ((a1 * (k1.TotalRequests : ℚ) + a2 * (k2.TotalRequests : ℚ))
          / ((k1.TotalRequests : ℚ) + (k2.TotalRequests : ℚ))) ∧
    (foldKeyStats NewAggregatedKeyStats [k1, k2]).AvgVolumeUtilization
      = F64.fin ((u1 * (k1.TotalRequests : ℚ) + u2 * (k2.TotalRequests : ℚ))
          / ((k1.TotalRequests : ℚ) + (k2.TotalRequests : ℚ))) := by
  have h1 : (0 : ℚ) < (k1.TotalRequests : ℚ) := by exact_mod_cast hp1
  have h2 : (0 : ℚ) < (k2.TotalRequests : ℚ) := by exact_mod_cast hp2
  have hne1 : (k1.TotalRequests : ℚ) ≠ 0 := h1.ne'
  have hne2 : (k1.TotalRequests : ℚ) + (k2.TotalRequests : ℚ) ≠ 0 := by positivity
  constructor
  · simp only [foldKeyStats, List.foldl_cons, List.foldl_nil, AggregatedKeyStats.AggregateKeyStats,
      NewAggregatedKeyStats, ha1, ha2, F64.ofInt, F64.mul_fin, F64.add_fin, zero_add, mul_zero,
      Int.cast_zero, Int.cast_add]
    rw [F64.div_fin _ _ hne1, F64.mul_fin, F64.add_fin, F64.div_fin _ _ hne2]
    congr 2
    field_simp
    ring
  · simp only [foldKeyStats, List.foldl_cons, List.foldl_nil, AggregatedKeyStats.AggregateKeyStats,
      NewAggregatedKeyStats, hu1, hu2, F64.ofInt, F64.mul_fin, F64.add_fin, zero_add, mul_zero,
      Int.cast_zero, Int.cast_add]
    rw [F64.div_fin _ _ hne1, F64.mul_fin, F64.add_fin, F64.div_fin _ _ hne2]
    congr 2
    field_simp
    ring

/-- Witness of C7: means `2` over 3 requests and `1` over 4 requests combine
to `(2 * 3 + 1 * 4) / (3 + 4)`. -/
theorem C7_weighted_means_witness :
    (foldKeyStats NewAggregatedKeyStats
        [exampleKeyStats "a" 3 1 2 5 9, exampleKeyStats "b" 4 0 1 6 7]).AvgItemsPerPack
      = F64.fin ((2 * 3 + 1 * 4) / (3 + 4)) := by
  have h := (C7_weighted_means (exampleKeyStats "a" 3 1 2 5 9) (exampleKeyStats "b" 4 0 1 6 7)
    2 1 (1 / 4) (1 / 4) (by decide) (by decide) rfl rfl rfl rfl).1
  rw [h]
  norm_num [exampleKeyStats]

/-- C8: when the number of non-cache-hit requests of both sides together is
positive and both mean latencies are finite, one cross-key merge sets
`AvgLatency` to the mean weighted by the non-cache-hit counts, read from the
Cross-Key Aggregate before the merge. -/
theorem C8_latency_mean (x : AggregatedKeyStats) (k : KeyStats) (lx lk : ℚ)
    (hden : 0 < x.TotalRequests + k.TotalRequests - x.CacheHits - k.CacheHits)
    (hx : x.AvgLatency = F64.fin lx) (hk : k.AvgLatency = F64.fin lk) :
    (x.AggregateKeyStats k).AvgLatency
      = F64.fin ((lx * ((x.TotalRequests : ℚ) - (x.CacheHits : ℚ))
            + lk * ((k.TotalRequests : ℚ) - (k.CacheHits : ℚ)))
          / ((x.TotalRequests : ℚ) + (k.TotalRequests : ℚ) - (x.CacheHits : ℚ)
              - (k.CacheHits : ℚ))) := by
  have hne : (((x.TotalRequests + k.TotalRequests - x.CacheHits - k.CacheHits : Int)) : ℚ) ≠ 0 := by
    have : (0 : ℚ) < ((x.TotalRequests + k.TotalRequests - x.CacheHits - k.CacheHits : Int) : ℚ) := by
      exact_mod_cast hden
    exact this.ne'
  simp only [AggregatedKeyStats.AggregateKeyStats, hx, hk, F64.ofInt, F64.mul_fin, F64.add_fin]
  rw [F64.div_fin _ _ hne]
  push_cast
  rfl

/-- Witness of C8: a Cross-Key Aggregate holding one Key Aggregate merges a
second one. -/
theorem C8_latency_mean_witness :
    ((NewAggregatedKeyStats.AggregateKeyStats (exampleKeyStats "a" 3 1 2 5 9)).AggregateKeyStats
        (exampleKeyStats "b" 4 0 1 6 7)).AvgLatency
      = F64.fin ((5 * (3 - 1) + 6 * (4 - 0)) / (3 + 4 - 1 - 0)) := by
  have h0 : (NewAggregatedKeyStats.AggregateKeyStats (exampleKeyStats "a" 3 1 2 5 9)).AvgLatency
      = F64.fin 5 := by
    have h := C8_latency_mean NewAggregatedKeyStats (exampleKeyStats "a" 3 1 2 5 9) 0 5
      (by decide) rfl rfl
    rw [h]
    norm_num [exampleKeyStats, NewAggregatedKeyStats]
  have h := C8_latency_mean (NewAggregatedKeyStats.AggregateKeyStats (exampleKeyStats "a" 3 1 2 5 9))
    (exampleKeyStats "b" 4 0 1 6 7) 5 6 (by decide) h0 rfl
  rw [h]
  norm_num [exampleKeyStats, NewAggregatedKeyStats, AggregatedKeyStats.AggregateKeyStats]

/-! ## Cross-key merge: the zero denominator -/

theorem F64.div_zero_not_finite (a : F64) : ¬ (F64.div a (F64.fin 0)).IsFinite := by
  cases a with
  | fin q =>
    rw [F64.div_fin_zero]
    unfold F64.infOfSign
    split_ifs <;> simp [F64.IsFinite]
  | pinf => simp [F64.div, F64.IsFinite]
  | ninf => simp [F64.div, F64.IsFinite]
  | nan => simp [F64.div, F64.IsFinite]

/-- With no non-cache-hit request on either side the cross-key merge divides
by zero: the resulting `AvgLatency` is never a finite number. -/
theorem aggregateKeyStats_zero_denominator (x : AggregatedKeyStats) (k : KeyStats)
    (hden : x.TotalRequests + k.TotalRequests - x.CacheHits - k.CacheHits = 0) :
    ¬ (x.AggregateKeyStats k).AvgLatency.IsFinite := by
  simp only [AggregatedKeyStats.AggregateKeyStats, hden, F64.ofInt, Int.cast_zero]
  exact F64.div_zero_not_finite _

/-- Once `AvgLatency` is `NaN` every later merge leaves it `NaN`. -/
theorem foldKeyStats_avgLatency_nan (ks : List KeyStats) :
    ∀ x : AggregatedKeyStats, x.AvgLatency = F64.nan →
      (foldKeyStats x ks).AvgLatency = F64.nan := by
  induction ks with
  | nil => intro x hx; exact hx
  | cons k ks ih =>
    intro x hx
    rw [foldKeyStats_cons]
    apply ih
    simp [AggregatedKeyStats.AggregateKeyStats, hx, F64.mul, F64.add, F64.div]

/-- C9 (the code at the degenerate input): folding an empty (reset) Key
Aggregate into a fresh Cross-Key Aggregate divides `0` by `0`: `AvgLatency`,
`AvgItemsPerPack` and `AvgVolumeUtilization` all become `NaN`, not `0`, and
`AvgLatency` stays `NaN` whatever Key Aggregates are folded in afterwards. -/
theorem C9_empty_merge_is_nan (keystem : String) (rest : List KeyStats) :
    (NewAggregatedKeyStats.AggregateKeyStats (NewKeyStats keystem)).AvgLatency = F64.nan ∧
    (NewAggregatedKeyStats.AggregateKeyStats (NewKeyStats keystem)).AvgItemsPerPack = F64.nan ∧
    (NewAggregatedKeyStats.AggregateKeyStats (NewKeyStats keystem)).AvgVolumeUtilization
      = F64.nan ∧
    (foldKeyStats NewAggregatedKeyStats (NewKeyStats keystem :: rest)).AvgLatency = F64.nan := by
  have h : (NewAggregatedKeyStats.AggregateKeyStats (NewKeyStats keystem)).AvgLatency
      = F64.nan := by
    simp [AggregatedKeyStats.AggregateKeyStats, NewAggregatedKeyStats, NewKeyStats, KeyStats.Init,
      F64.ofInt, F64.infOfSign]
  refine ⟨h, ?_, ?_, ?_⟩
  · simp [AggregatedKeyStats.AggregateKeyStats, NewAggregatedKeyStats, NewKeyStats, KeyStats.Init,
      F64.ofInt, F64.infOfSign]
  · simp [AggregatedKeyStats.AggregateKeyStats, NewAggregatedKeyStats, NewKeyStats, KeyStats.Init,
      F64.ofInt, F64.infOfSign]
  · rw [foldKeyStats_cons]
    exact foldKeyStats_avgLatency_nan rest _ h

/-! ## Cross-key merge: highest latencies -/

/-- C10: folding a list of Key Aggregates with finite latencies into a fresh
Cross-Key Aggregate.  When some `HighestLatency.Latency` is positive,
`MaxLatency` is the highest latency, keystem and timestamp of the first Key
Aggregate whose highest latency is the maximum over the list; when some
`AvgLatency` is positive, `HighestAvgLatency` is the mean latency and keystem
of the first Key Aggregate whose mean latency is the maximum over the list. -/
theorem C10_highest_latencies (ks : List KeyStats)
    (hfinH : ∀ k ∈ ks, k.HighestLatency.Latency.IsFinite)
    (hfinA : ∀ k ∈ ks, k.AvgLatency.IsFinite) :
    ((∃ k ∈ ks, 0 < k.HighestLatency.Latency.toRat) →
      ∃ pre k post, ks = pre ++ k :: post ∧
        (foldKeyStats NewAggregatedKeyStats ks).MaxLatency
          = { Latency := k.HighestLatency.Latency
              UsedKeystem := k.UsedKeystem
              TimeStamp := k.HighestLatency.TimeStamp } ∧
        (∀ t ∈ pre, t.HighestLatency.Latency.toRat < k.HighestLatency.Latency.toRat) ∧
        (∀ t ∈ post, t.HighestLatency.Latency.toRat ≤ k.HighestLatency.Latency.toRat)) ∧
    ((∃ k ∈ ks, 0 < k.AvgLatency.toRat) →
      ∃ pre k post, ks = pre ++ k :: post ∧
        (foldKeyStats NewAggregatedKeyStats ks).HighestAvgLatency
          = { Latency := k.AvgLatency, UsedKeystem := k.UsedKeystem } ∧
        (∀ t ∈ pre, t.AvgLatency.toRat < k.AvgLatency.toRat) ∧
        (∀ t ∈ post, t.AvgLatency.toRat ≤ k.AvgLatency.toRat)) := by
  constructor
  · intro hpos
    have key := foldl_strict_max AggregatedKeyStats.AggregateKeyStats
      (fun x => x.MaxLatency.Latency) (fun x => (x.MaxLatency.UsedKeystem, x.MaxLatency.TimeStamp))
      (fun k => some k.HighestLatency.Latency.toRat)
      (fun k => (k.UsedKeystem, k.HighestLatency.TimeStamp)) ks
      (by
        intro x h hx k hk
        obtain ⟨q, hq⟩ := (F64.isFinite_iff _).mp (hfinH k hk)
        simp only [] at hx
        constructor
        · intro y hy hlt
          simp only [Option.some.injEq, hq, F64.toRat] at hy
          subst hy
          simp [AggregatedKeyStats.AggregateKeyStats, hq, hx, hlt]
        · intro hle
          have hqh : q ≤ h := hle q (by simp [hq, F64.toRat])
          simp [AggregatedKeyStats.AggregateKeyStats, hq, hx, not_lt.mpr hqh])
      NewAggregatedKeyStats 0 rfl
    rcases key with ⟨_, _, h3⟩ | ⟨pre, k, post, x, hl, hv, hx, h1, h2, h3, h4⟩
    · obtain ⟨k, hk, hp⟩ := hpos
      exact absurd hp (not_lt.mpr (h3 k hk _ rfl))
    · have hkx : k.HighestLatency.Latency.toRat = x := by simpa using hv
      have hkmem : k ∈ ks := by rw [hl]; simp
      have hkfin : F64.fin x = k.HighestLatency.Latency := by
        rw [← hkx]; exact F64.fin_toRat (hfinH k hkmem)
      refine ⟨pre, k, post, hl, ?_, ?_, ?_⟩
      · simp only [Prod.mk.injEq] at h2
        simp only [] at h1
        rw [← hkfin, ← h1, ← h2.1, ← h2.2]
        rfl
      · intro t ht
        rw [hkx]
        exact h3 t ht _ rfl
      · intro t ht
        rw [hkx]
        exact h4 t ht _ rfl
  · intro hpos
    have key := foldl_strict_max AggregatedKeyStats.AggregateKeyStats
      (fun x => x.HighestAvgLatency.Latency) (fun x => x.HighestAvgLatency.UsedKeystem)
      (fun k => some k.AvgLatency.toRat) (fun k => k.UsedKeystem) ks
      (by
        intro x h hx k hk
        obtain ⟨q, hq⟩ := (F64.isFinite_iff _).mp (hfinA k hk)
        simp only [] at hx
        constructor
        · intro y hy hlt
          simp only [Option.some.injEq, hq, F64.toRat] at hy
          subst hy
          simp [AggregatedKeyStats.AggregateKeyStats, hq, hx, hlt]
        · intro hle
          have hqh : q ≤ h := hle q (by simp [hq, F64.toRat])
          simp [AggregatedKeyStats.AggregateKeyStats, hq, hx, not_lt.mpr hqh])
      NewAggregatedKeyStats 0 rfl
    rcases key with ⟨_, _, h3⟩ | ⟨pre, k, post, x, hl, hv, hx, h1, h2, h3, h4⟩
    · obtain ⟨k, hk, hp⟩ := hpos
      exact absurd hp (not_lt.mpr (h3 k hk _ rfl))
    · have hkx : k.AvgLatency.toRat = x := by simpa using hv
      have hkmem : k ∈ ks := by rw [hl]; simp
      have hkfin : F64.fin x = k.AvgLatency := by
        rw [← hkx]; exact F64.fin_toRat (hfinA k hkmem)
      refine ⟨pre, k, post, hl, ?_, ?_, ?_⟩
      · simp only [] at h1 h2
        rw [← hkfin, ← h1, ← h2]
        rfl
      · intro t ht
        rw [hkx]
        exact h3 t ht _ rfl
      · intro t ht
        rw [hkx]
        exact h4 t ht _ rfl

/-- Witness of C10: of three Key Aggregates the first holds the highest
single latency and the second the highest mean latency. -/
theorem C10_highest_latencies_witness :
    (∃ pre k post, exampleKeys = pre ++ k :: post ∧
        (foldKeyStats NewAggregatedKeyStats exampleKeys).MaxLatency
          = { Latency := k.HighestLatency.Latency
              UsedKeystem := k.UsedKeystem
              TimeStamp := k.HighestLatency.TimeStamp } ∧
        (∀ t ∈ pre, t.HighestLatency.Latency.toRat < k.HighestLatency.Latency.toRat) ∧
        (∀ t ∈ post, t.HighestLatency.Latency.toRat ≤ k.HighestLatency.Latency.toRat)) ∧
    (foldKeyStats NewAggregatedKeyStats exampleKeys).MaxLatency
      = { Latency := F64.fin 9, UsedKeystem := "a", TimeStamp := "t-a" } ∧
    (foldKeyStats NewAggregatedKeyStats exampleKeys).HighestAvgLatency
      = { Latency := F64.fin 6, UsedKeystem := "b" } :=
  ⟨(C10_highest_latencies exampleKeys (by decide) (by decide)).1
      ⟨exampleKeyStats "a" 3 1 2 5 9, by simp [exampleKeys],
        by simp [exampleKeyStats, F64.toRat]⟩,
   by decide, by decide⟩

/-! ## Message router: the type tag -/

theorem getMessageType_of_no_type (msg : ConsumerMessage)
    (h : ∀ hd ∈ msg.Headers, hd.Key ≠ "type") : getMessageType msg = "" := by
  unfold getMessageType
  have : msg.Headers.find? (fun hd => decide (hd.Key = "type")) = none := by
    rw [List.find?_eq_none]
    intro hd hmem
    simpa using h hd hmem
  rw [this]

theorem getMessageType_of_first (msg : ConsumerMessage) (pre post : List RecordHeader)
    (hd : RecordHeader) (hsplit : msg.Headers = pre ++ hd :: post)
    (hpre : ∀ x ∈ pre, x.Key ≠ "type") (hkey : hd.Key = "type") :
    getMessageType msg = hd.Value := by
  unfold getMessageType
  have : msg.Headers.find? (fun hd => decide (hd.Key = "type")) = some hd := by
    rw [hsplit, List.find?_append]
    have hnone : pre.find? (fun hd => decide (hd.Key = "type")) = none := by
      rw [List.find?_eq_none]
      intro x hx
      simpa using hpre x hx
    simp [hnone, hkey]
  rw [this]

/-- C13: a record without a `type` header, or whose type (the value of the
first `type` header) is neither `stats` nor `delete`, leaves the handler
(aggregate map, offset map, `lastWrite`) and the database as they were, makes
no call but `MarkMessage` (no flush), and the message loop goes on with the
next record. -/
theorem C13_unknown_type_ignored (h : consumerHandler) (db : MongoDB) (d : Delivery)
    (rest : List Delivery)
    (htype : (∀ hd ∈ d.msg.Headers, hd.Key ≠ "type") ∨
      (getMessageType d.msg ≠ "stats" ∧ getMessageType d.msg ≠ "delete")) :
    handleMessage h db d
      = Except.ok (h, db, [Event.MarkMessage d.msg.Partition d.msg.Offset]) ∧
    consumeMessages h db (d :: rest)
      = (match consumeMessages h db rest with
        | Except.error f => Except.error f
        | Except.ok (h2, db2, events) =>
          Except.ok (h2, db2, Event.MarkMessage d.msg.Partition d.msg.Offset :: events)) := by
  have hne : getMessageType d.msg ≠ "stats" ∧ getMessageType d.msg ≠ "delete" := by
    rcases htype with hno | hne
    · rw [getMessageType_of_no_type d.msg hno]
      exact ⟨by decide, by decide⟩
    · exact hne
  have hstep : handleMessage h db d
      = Except.ok (h, db, [Event.MarkMessage d.msg.Partition d.msg.Offset]) := by
    simp [handleMessage, MessageTypeDelete, MessageTypeStats, hne.1, hne.2]
  refine ⟨hstep, ?_⟩
  rw [consumeMessages, hstep]
  dsimp only
  cases consumeMessages h db rest with
  | error f => rfl
  | ok r => rfl

/-- Witness of C13: a record of type `ping`. -/
theorem C13_unknown_type_ignored_witness :
    handleMessage consumerHandler.initial { offsets := [], statistics := [], script := [] }
        { msg := exampleMessage "ping" 7 none none, now := 0 }
      = Except.ok (consumerHandler.initial, { offsets := [], statistics := [], script := [] },
          [Event.MarkMessage 0 7]) :=
  (C13_unknown_type_ignored consumerHandler.initial
    { offsets := [], statistics := [], script := [] }
    { msg := exampleMessage "ping" 7 none none, now := 0 } []
    (Or.inr ⟨by decide, by decide⟩)).1

/-! ## Message router: delete requests -/

theorem lookup_ensureKeyStats (m : StatsMap) (k k' : String) :
    (ensureKeyStats m k).lookup k' =
      if k' = k then some ((m.lookup k).getD (NewKeyStats k)) else m.lookup k' := by
  unfold ensureKeyStats
  by_cases hk : k' = k
  · subst hk
    cases hm : m.lookup k' <;> simp [hm]
  · cases hm : m.lookup k <;> simp [hk, AList.lookup_insert_ne hk]

theorem lookup_updateKeyStats (m : StatsMap) (k k' : String) (f : KeyStats → KeyStats) :
    (updateKeyStats m k f).lookup k' =
      if k' = k then (m.lookup k).map f else m.lookup k' := by
  unfold updateKeyStats
  by_cases hk : k' = k
  · subst hk
    cases hm : m.lookup k' <;> simp [hm]
  · cases hm : m.lookup k <;> simp [hk, AList.lookup_insert_ne hk]

theorem reset_eq_new (ks : KeyStats) : ks.Reset = NewKeyStats ks.UsedKeystem := rfl

/-- A well-formed delete request for keystem `k`, handled in a state whose
offset map is made and in which the aggregate stored under `k` (if any)
carries the keystem `k`.  Whether or not `k` was in the map, the map then
holds the empty Key Aggregate under `k`, every other keystem keeps its
aggregate, the offset of the record is stored, and `writeStats` is called
with exactly that state. -/
theorem handleMessage_delete_resets (h : consumerHandler) (db : MongoDB) (d : Delivery) (k : String)
    (offsets : OffsetMap)
    (htype : getMessageType d.msg = "delete")
    (hdec : d.msg.asDeleteRequest = some { UsedKeystem := k })
    (hoff : h.offsetByPartition = some offsets)
    (hkeyed : ∀ ks, h.statsByKeystem.lookup k = some ks → ks.UsedKeystem = k) :
    ∃ h1 db1 events, handleMessage h db d = Except.ok (h1, db1, events) ∧
      h1.statsByKeystem.lookup k = some
        { UsedKeystem := k
          TotalItems := 0
          TotalVolume := F64.fin 0
          AvgItemsPerPack := F64.fin 0
          AvgVolumeUtilization := F64.fin 0
          BoxTypes := GoMap.empty
          TotalRequests := 0
          StatusCodes := GoMap.empty
          RequestErrorCount := 0
          ErrorResponseCount := 0
          CacheHits := 0
          HighestLatency := { Latency := F64.fin 0, TimeStamp := "" }
          AvgLatency := F64.fin 0 } ∧
      (∀ k', k' ≠ k → h1.statsByKeystem.lookup k' = h.statsByKeystem.lookup k') ∧
      h1.offsetByPartition = some (offsets.insert d.msg.Partition d.msg.Offset) ∧
      h1.lastWrite = h.lastWrite ∧
      db1 = (writeStats h1 db).2 ∧
      events = [Event.writeStats h1.offsetByPartition h1.statsByKeystem,
        Event.MarkMessage d.msg.Partition d.msg.Offset] := by
  refine ⟨{ h with
      statsByKeystem := updateKeyStats (ensureKeyStats h.statsByKeystem k) k KeyStats.Reset
      offsetByPartition := some (offsets.insert d.msg.Partition d.msg.Offset) },
    _, _, ?_, ?_, ?_, rfl, rfl, rfl, rfl⟩
  · simp only [handleMessage, htype, MessageTypeDelete, if_true, hdec, hoff]
  · simp only [lookup_updateKeyStats, lookup_ensureKeyStats, if_true]
    cases hm : h.statsByKeystem.lookup k with
    | none => rfl
    | some ks =>
      simp only [Option.getD_some, Option.map_some', reset_eq_new, hkeyed ks hm]
      rfl
  · intro k' hk'
    simp only [lookup_updateKeyStats, lookup_ensureKeyStats, hk', if_false]

/-- Two delete requests handled by `handleMessage_delete_resets`: one for a
keystem that holds an aggregate and one for a keystem the handler has never
seen. -/
theorem handleMessage_delete_resets_example :
    (∃ h1 db1 events,
      handleMessage
          { consumerHandler.initial with
            statsByKeystem := AList.insert "a" (exampleKeyStats "a" 3 1 2 5 9) ∅ }
          { offsets := [], statistics := [], script := [] }
          { msg := exampleMessage "delete" 7 none (some { UsedKeystem := "a" }), now := 0 }
        = Except.ok (h1, db1, events) ∧
      h1.statsByKeystem.lookup "a" = some (NewKeyStats "a") ∧
      events.length = 2) ∧
    (∃ h1 db1 events,
      handleMessage
          { consumerHandler.initial with
            statsByKeystem := AList.insert "a" (exampleKeyStats "a" 3 1 2 5 9) ∅ }
          { offsets := [], statistics := [], script := [] }
          { msg := exampleMessage "delete" 7 none (some { UsedKeystem := "b" }), now := 0 }
        = Except.ok (h1, db1, events) ∧
      h1.statsByKeystem.lookup "b" = some (NewKeyStats "b") ∧
      h1.statsByKeystem.lookup "a" = some (exampleKeyStats "a" 3 1 2 5 9)) := by
  constructor
  · obtain ⟨h1, db1, events, hs, hk, _, _, _, _, hev⟩ :=
      handleMessage_delete_resets
        { consumerHandler.initial with
          statsByKeystem := AList.insert "a" (exampleKeyStats "a" 3 1 2 5 9) ∅ }
        { offsets := [], statistics := [], script := [] }
        { msg := exampleMessage "delete" 7 none (some { UsedKeystem := "a" }), now := 0 }
        "a" ∅ (by decide) rfl rfl
        (by
          intro ks hks
          simp only [AList.lookup_insert, Option.some.injEq] at hks
          rw [← hks]
          rfl)
    exact ⟨h1, db1, events, hs, hk, by rw [hev]; rfl⟩
  · obtain ⟨h1, db1, events, hs, hk, hother, _⟩ :=
      handleMessage_delete_resets
        { consumerHandler.initial with
          statsByKeystem := AList.insert "a" (exampleKeyStats "a" 3 1 2 5 9) ∅ }
        { offsets := [], statistics := [], script := [] }
        { msg := exampleMessage "delete" 7 none (some { UsedKeystem := "b" }), now := 0 }
        "b" ∅ (by decide) rfl rfl
        (by
          intro ks hks
          rw [AList.lookup_insert_ne (by decide)] at hks
          simp at hks)
    refine ⟨h1, db1, events, hs, hk, ?_⟩
    rw [hother "a" (by decide)]
    exact AList.lookup_insert _

/-! ## Reload of the checkpoints -/

theorem lookup_offsetSliceToMap (p o : Int) (docs : List PartitionOffset) :
    (docs.map (fun d => d.Partition)).Nodup → ∀ m : OffsetMap,
      ((offsetSliceToMap docs m).lookup p = some o ↔
        ({ Partition := p, Offset := o } ∈ docs ∨
          (p ∉ docs.map (fun d => d.Partition) ∧ m.lookup p = some o))) := by
  induction docs with
  | nil => intro _ m; simp [offsetSliceToMap]
  | cons d ds ih =>
    intro hnd m
    obtain ⟨hd, hds⟩ := List.nodup_cons.mp hnd
    have hstep : offsetSliceToMap (d :: ds) m
        = offsetSliceToMap ds (m.insert d.Partition d.Offset) := rfl
    rw [hstep, ih hds]
    obtain ⟨dp, dof⟩ := d
    by_cases hp : p = dp
    · subst hp
      have hnot : ∀ o', ({ Partition := p, Offset := o' } : PartitionOffset) ∉ ds := by
        intro o' hmem
        exact hd (List.mem_map.mpr ⟨_, hmem, rfl⟩)
      simp only [List.map_cons, List.mem_cons] at hd ⊢
      simp [hnot o, hd, eq_comm]
    · have hne : ({ Partition := p, Offset := o } : PartitionOffset)
          ≠ { Partition := dp, Offset := dof } := by
        intro heq
        exact hp (congrArg PartitionOffset.Partition heq)
      simp only [List.map_cons, List.mem_cons, hne, false_or, not_or]
      rw [AList.lookup_insert_ne hp]
      simp [hp]

/-- A reload whose checkpoint read succeeds, on a store holding at most one
checkpoint per partition: the aggregate map is emptied, the offset map holds
exactly the stored checkpoints of the claimed partitions, and `ResetOffset`
is called once for each entry of that map, with the stored offset, and for
nothing else. -/
theorem loadReset_read_success (h : consumerHandler) (db : MongoDB) (sess : Session)
    (hread : (GetOffsets db sess.Claims).1.2 = none)
    (huniq : (db.offsets.map (fun d => d.Partition)).Nodup) :
    (loadReset h db sess).err = none ∧
    (loadReset h db sess).handler.statsByKeystem = ∅ ∧
    (∃ m : OffsetMap, (loadReset h db sess).handler.offsetByPartition = some m ∧
      (∀ p o, m.lookup p = some o ↔
        (p ∈ sess.Claims ∧ { Partition := p, Offset := o } ∈ db.offsets)) ∧
      (loadReset h db sess).events = m.entries.map (fun e => Event.ResetOffset e.1 e.2)) ∧
    (∀ p o, Event.ResetOffset p o ∈ (loadReset h db sess).events ↔
      (p ∈ sess.Claims ∧ { Partition := p, Offset := o } ∈ db.offsets)) ∧
    (∀ e ∈ (loadReset h db sess).events, ∃ p o, e = Event.ResetOffset p o) ∧
    (loadReset h db sess).db.offsets = db.offsets ∧
    (loadReset h db sess).db.statistics = db.statistics := by
  have h1 : ¬ db.call.1 = Outcome.error := by
    intro hc
    simp [GetOffsets, hc] at hread
  have h2 : ¬ db.call.2.call.1 = Outcome.error := by
    intro hc
    simp [GetOffsets, h1, hc] at hread
  have hcall : ∀ x : MongoDB, x.call.2.offsets = x.offsets ∧ x.call.2.statistics = x.statistics := by
    intro x
    unfold MongoDB.call
    cases x.script <;> exact ⟨rfl, rfl⟩
  have hgot : GetOffsets db sess.Claims
      = ((some (offsetSliceToMap
          (db.offsets.filter (fun d => decide (d.Partition ∈ sess.Claims))) ∅), none),
        db.call.2.call.2) := by
    simp [GetOffsets, h1, h2]
  have hnd : ((db.offsets.filter (fun d => decide (d.Partition ∈ sess.Claims))).map
      (fun d => d.Partition)).Nodup :=
    List.Nodup.sublist ((List.filter_sublist _).map _) huniq
  have hlook : ∀ p o,
      (offsetSliceToMap (db.offsets.filter (fun d => decide (d.Partition ∈ sess.Claims))) ∅).lookup p
        = some o ↔ (p ∈ sess.Claims ∧ { Partition := p, Offset := o } ∈ db.offsets) := by
    intro p o
    rw [lookup_offsetSliceToMap p o _ hnd]
    simp [List.mem_filter, and_comm]
  have hload : loadReset h db sess
      = { handler := clearKeyStats { h with offsetByPartition := some (offsetSliceToMap
            (db.offsets.filter (fun d => decide (d.Partition ∈ sess.Claims))) ∅) }
          db := db.call.2.call.2
          events := (offsetSliceToMap
            (db.offsets.filter (fun d => decide (d.Partition ∈ sess.Claims))) ∅).entries.map
              (fun e => Event.ResetOffset e.1 e.2)
          err := none } := by
    simp [loadReset, hgot]
  rw [hload]
  refine ⟨rfl, rfl, ⟨_, rfl, hlook, rfl⟩, ?_, ?_, ?_, ?_⟩
  · intro p o
    rw [← hlook p o]
    simp only [List.mem_map]
    constructor
    · rintro ⟨e, he, heq⟩
      obtain ⟨ep, eo⟩ := e
      simp only [Event.ResetOffset.injEq] at heq
      obtain ⟨rfl, rfl⟩ := heq
      exact AList.mem_lookup_iff.mpr he
    · intro hl
      exact ⟨⟨p, o⟩, AList.mem_lookup_iff.mp hl, rfl⟩
  · intro e he
    simp only [List.mem_map] at he
    obtain ⟨x, _, rfl⟩ := he
    exact ⟨x.1, x.2, rfl⟩
  · exact ((hcall db.call.2).1).trans (hcall db).1
  · exact ((hcall db.call.2).2).trans (hcall db).2

/-- A reload by `loadReset_read_success`: partitions 0 and 2 are claimed, the
store holds one checkpoint for each of 0, 1 and 2. -/
theorem loadReset_read_success_example :
    (∀ p o, Event.ResetOffset p o ∈
        (loadReset consumerHandler.initial exampleStore
          { GenerationID := 1, Claims := [0, 2] }).events ↔
      (p ∈ [0, 2] ∧ ({ Partition := p, Offset := o } : PartitionOffset) ∈ exampleStore.offsets)) ∧
    (loadReset consumerHandler.initial exampleStore
        { GenerationID := 1, Claims := [0, 2] }).events
      = [Event.ResetOffset 2 15, Event.ResetOffset 0 40] :=
  ⟨(loadReset_read_success consumerHandler.initial exampleStore { GenerationID := 1, Claims := [0, 2] }
      (by decide) (by decide)).2.2.2.1,
   by decide⟩

/-! ## Message router: undecodable payloads -/

theorem handleMessage_stats_decode_failure (h : consumerHandler) (db : MongoDB) (d : Delivery)
    (htype : getMessageType d.msg = "stats") (hdec : d.msg.asStats = none) :
    handleMessage h db d = Except.ok (h, db, []) := by
  simp [handleMessage, htype, hdec, MessageTypeDelete, MessageTypeStats]

theorem handleMessage_delete_decode_failure (h : consumerHandler) (db : MongoDB) (d : Delivery)
    (htype : getMessageType d.msg = "delete") (hdec : d.msg.asDeleteRequest = none) :
    handleMessage h db d = Except.ok (h, db, []) := by
  simp [handleMessage, htype, hdec, MessageTypeDelete]

theorem getMessageType_exampleMessage (type : String) (offset : Int) (asStats : Option Stats)
    (asDeleteRequest : Option DeleteRequest) :
    getMessageType (exampleMessage type offset asStats asDeleteRequest) = type := rfl

theorem handleMessage_other_type (h : consumerHandler) (db : MongoDB) (d : Delivery)
    (hs : getMessageType d.msg ≠ "stats") (hd : getMessageType d.msg ≠ "delete") :
    handleMessage h db d
      = Except.ok (h, db, [Event.MarkMessage d.msg.Partition d.msg.Offset]) := by
  simp [handleMessage, MessageTypeDelete, MessageTypeStats, hs, hd]

/-- C12 (the code at the failing input): a record of type `stats` or `delete`
whose payload does not decode is left by `continue` before the call of
`MarkMessage`: the iteration makes no call at all, whereas a record of an
unknown type is marked. -/
theorem C12_decode_failure_not_marked (h : consumerHandler) (db : MongoDB) (offset now : Int) :
    handleMessage h db { msg := exampleMessage "stats" offset none none, now := now }
      = Except.ok (h, db, []) ∧
    handleMessage h db { msg := exampleMessage "delete" offset none none, now := now }
      = Except.ok (h, db, []) ∧
    handleMessage h db { msg := exampleMessage "ping" offset none none, now := now }
      = Except.ok (h, db, [Event.MarkMessage 0 offset]) :=
  ⟨handleMessage_stats_decode_failure h db _ (getMessageType_exampleMessage _ _ _ _) rfl,
   handleMessage_delete_decode_failure h db _ (getMessageType_exampleMessage _ _ _ _) rfl,
   handleMessage_other_type h db _
     (by rw [getMessageType_exampleMessage]; decide)
     (by rw [getMessageType_exampleMessage]; decide)⟩

/-! ## Flush -/

/-- C14 (the code at the failing input): the driver fails at the first write
to the statistics collection.  `writeStats` returns the error, and the
checkpoint written before it stays in the `offsets` collection while the
`statistics` collection is unchanged. -/
theorem C14_flush_not_atomic :
    writeStats exampleHandler exampleFailingStore
      = (some GoError.driver,
          { offsets := [{ Partition := 0, Offset := 7 }], statistics := [], script := [] }) ∧
    (writeStats exampleHandler exampleFailingStore).2.offsets ≠ exampleFailingStore.offsets ∧
    (writeStats exampleHandler exampleFailingStore).2.statistics
      = exampleFailingStore.statistics := by
  decide

/-! ## Upserts of the document store -/

/-- C16 (the code at the failing input): on an empty `offsets` collection,
a successful `CreateUpdateOffsets` of a map with the partitions 0 and 1
leaves two documents for the partition visited first, in either order of
the iteration: `InsertMany` runs inside the loop with every miss so far. -/
theorem C16_duplicate_checkpoints :
    CreateUpdateOffsets emptyStore (some (AList.insert 0 10 (AList.insert 1 20 ∅)))
      = ((true, none),
          { offsets := [{ Partition := 0, Offset := 10 }, { Partition := 0, Offset := 10 },
              { Partition := 1, Offset := 20 }]
            statistics := []
            script := [] }) ∧
    CreateUpdateOffsets emptyStore (some (AList.insert 1 20 (AList.insert 0 10 ∅)))
      = ((true, none),
          { offsets := [{ Partition := 1, Offset := 20 }, { Partition := 1, Offset := 20 },
              { Partition := 0, Offset := 10 }]
            statistics := []
            script := [] }) := by
  decide

/-- C17 (the code at the failing input): two successful calls of
`CreateUpdateKeyStats` on an empty collection, the second with updated
aggregates for the same two keystems.  The first call leaves two documents
for keystem `a`, the second replaces only the first of them, and
`GetKeyStats` then returns the stale aggregate for `a`. -/
theorem C17_stale_round_trip :
    (CreateUpdateKeyStats emptyStore
        (AList.insert "a" (keyStatsWithRequests "a" 1)
          (AList.insert "b" (keyStatsWithRequests "b" 1) ∅))).1 = (true, none) ∧
    (CreateUpdateKeyStats
        (CreateUpdateKeyStats emptyStore
          (AList.insert "a" (keyStatsWithRequests "a" 1)
            (AList.insert "b" (keyStatsWithRequests "b" 1) ∅))).2
        (AList.insert "a" (keyStatsWithRequests "a" 2)
          (AList.insert "b" (keyStatsWithRequests "b" 2) ∅))).1 = (true, none) ∧
    (CreateUpdateKeyStats
        (CreateUpdateKeyStats emptyStore
          (AList.insert "a" (keyStatsWithRequests "a" 1)
            (AList.insert "b" (keyStatsWithRequests "b" 1) ∅))).2
        (AList.insert "a" (keyStatsWithRequests "a" 2)
          (AList.insert "b" (keyStatsWithRequests "b" 2) ∅))).2.statistics
      = [keyStatsWithRequests "a" 2, keyStatsWithRequests "a" 1, keyStatsWithRequests "b" 2] ∧
    ((GetKeyStats
        (CreateUpdateKeyStats
          (CreateUpdateKeyStats emptyStore
            (AList.insert "a" (keyStatsWithRequests "a" 1)
              (AList.insert "b" (keyStatsWithRequests "b" 1) ∅))).2
          (AList.insert "a" (keyStatsWithRequests "a" 2)
            (AList.insert "b" (keyStatsWithRequests "b" 2) ∅))).2
        ["a", "b"]).1.1.bind (fun m => m.lookup "a"))
      = some (keyStatsWithRequests "a" 1) ∧
    (keyStatsWithRequests "a" 1).TotalRequests ≠ (keyStatsWithRequests "a" 2).TotalRequests :=
  ⟨rfl, rfl, rfl, rfl, by decide⟩

/-! ## Flush triggers -/

/-- C15 (the code at the failing input): the last timer-triggered flush was
at 10 s.  A delete request handled at 20 s is flushed at once and the flush
succeeds, but `lastWrite` stays at 10 s; a sample handled at 21 s, one second
after that successful flush, is therefore flushed again. -/
theorem C15_delete_flush_not_recorded :
    handleMessage flushedHandler emptyStore deleteAt20
      = Except.ok (afterDelete20, (writeStats afterDelete20 emptyStore).2,
          [Event.writeStats afterDelete20.offsetByPartition afterDelete20.statsByKeystem,
           Event.MarkMessage 0 1]) ∧
    (writeStats afterDelete20 emptyStore).1 = none ∧
    afterDelete20.lastWrite = flushedHandler.lastWrite ∧
    statsAt21.now - deleteAt20.now < dbWriteInterval ∧
    (handleMessage afterDelete20 (writeStats afterDelete20 emptyStore).2 statsAt21).toOption.map
        (fun r => (r.2.2.map Event.isWriteStats, r.1.lastWrite))
      = some ([true, false], seconds 21) :=
  ⟨rfl, rfl, rfl, by decide, by decide⟩

/-! ## Reload: failure of the read, and the generation id -/

theorem loadReset_read_failure (h : consumerHandler) (offsets : List PartitionOffset)
    (statistics : List KeyStats) (rest : List Outcome) (sess : Session) :
    loadReset h { offsets := offsets, statistics := statistics, script := Outcome.error :: rest }
        sess
      = { handler := { h with offsetByPartition := none }
          db := { offsets := offsets, statistics := statistics, script := rest }
          events := []
          err := some GoError.driver } := by
  simp [loadReset, GetOffsets, MongoDB.call]

theorem handleMessage_stats_nil_offsets (h : consumerHandler) (db : MongoDB) (offset now : Int)
    (stats : Stats) :
    handleMessage { h with offsetByPartition := none } db
        { msg := exampleMessage "stats" offset (some stats) none, now := now }
      = Except.error Fault.assignmentToNilMap := by
  have hs : (exampleMessage "stats" offset (some stats) none).asStats = some stats := rfl
  simp [handleMessage, getMessageType_exampleMessage, MessageTypeDelete, MessageTypeStats, hs]

theorem handleMessage_delete_nil_offsets (h : consumerHandler) (db : MongoDB) (offset now : Int)
    (dr : DeleteRequest) :
    handleMessage { h with offsetByPartition := none } db
        { msg := exampleMessage "delete" offset none (some dr), now := now }
      = Except.error Fault.assignmentToNilMap := by
  have hd : (exampleMessage "delete" offset none (some dr)).asDeleteRequest = some dr := rfl
  simp [handleMessage, getMessageType_exampleMessage, MessageTypeDelete, hd]

/-- C19 (the code at the failing input): when the read of the checkpoints
fails, `loadReset` returns before `clearKeyStats`, so the aggregates are
kept, and it has already stored the nil map returned by `GetOffsets` as the
offset map; `Setup` drops the error; the next well-formed statistics or
delete record then assigns into the nil map and the program panics. -/
theorem C19_failed_reload (h : consumerHandler) (offsets : List PartitionOffset)
    (statistics : List KeyStats) (rest : List Outcome) (sess : Session) (db : MongoDB)
    (offset now : Int) (stats : Stats) (dr : DeleteRequest) :
    (loadReset h { offsets := offsets, statistics := statistics, script := Outcome.error :: rest }
        sess).err = some GoError.driver ∧
    (loadReset h { offsets := offsets, statistics := statistics, script := Outcome.error :: rest }
        sess).handler.statsByKeystem = h.statsByKeystem ∧
    (loadReset h { offsets := offsets, statistics := statistics, script := Outcome.error :: rest }
        sess).handler.offsetByPartition = none ∧
    (Setup h { offsets := offsets, statistics := statistics, script := Outcome.error :: rest }
        sess).2.2.2 = none ∧
    handleMessage
        (loadReset h
          { offsets := offsets, statistics := statistics, script := Outcome.error :: rest }
          sess).handler db
        { msg := exampleMessage "stats" offset (some stats) none, now := now }
      = Except.error Fault.assignmentToNilMap ∧
    handleMessage
        (loadReset h
          { offsets := offsets, statistics := statistics, script := Outcome.error :: rest }
          sess).handler db
        { msg := exampleMessage "delete" offset none (some dr), now := now }
      = Except.error Fault.assignmentToNilMap ∧
    exampleHandler.statsByKeystem.lookup "k" = some (NewKeyStats "k") ∧
    ConsumeClaim exampleHandler { offsets := [], statistics := [], script := [Outcome.error] }
        exampleSession [statsAt21]
      = Except.error Fault.assignmentToNilMap := by
  rw [loadReset_read_failure]
  refine ⟨rfl, rfl, rfl, rfl, handleMessage_stats_nil_offsets h db offset now stats,
    handleMessage_delete_nil_offsets h db offset now dr, rfl, rfl⟩

theorem handleMessage_generation (h : consumerHandler) (db : MongoDB) (d : Delivery)
    (r : consumerHandler × MongoDB × List Event) (hr : handleMessage h db d = Except.ok r) :
    r.1.sessionGenerationId = h.sessionGenerationId := by
  unfold handleMessage at hr
  simp only [] at hr
  split_ifs at hr <;> (repeat' split at hr) <;> first | (cases hr; rfl) | cases hr

theorem consumeMessages_generation (claim : List Delivery) :
    ∀ (h : consumerHandler) (db : MongoDB) (r : consumerHandler × MongoDB × List Event),
      consumeMessages h db claim = Except.ok r →
      r.1.sessionGenerationId = h.sessionGenerationId := by
  induction claim with
  | nil =>
    intro h db r hr
    simp only [consumeMessages] at hr
    cases hr
    rfl
  | cons d rest ih =>
    intro h db r hr
    rw [consumeMessages] at hr
    cases hstep : handleMessage h db d with
    | error f => rw [hstep] at hr; cases hr
    | ok r1 =>
      rw [hstep] at hr
      obtain ⟨h1, db1, e1⟩ := r1
      dsimp only at hr
      cases hrest : consumeMessages h1 db1 rest with
      | error f => rw [hrest] at hr; cases hr
      | ok r2 =>
        rw [hrest] at hr
        obtain ⟨h2, db2, e2⟩ := r2
        dsimp only at hr
        cases hr
        exact (ih h1 db1 _ hrest).trans (handleMessage_generation h db d _ hstep)

theorem loadReset_generation (h : consumerHandler) (db : MongoDB) (sess : Session) :
    (loadReset h db sess).handler.sessionGenerationId = h.sessionGenerationId := by
  unfold loadReset
  dsimp only
  split <;> rfl

/-- No run of `ConsumeClaim` changes `sessionGenerationId`: the field is
compared with the generation id of the session and never assigned. -/
theorem consumeClaim_generation (h : consumerHandler) (db : MongoDB) (sess : Session)
    (claim : List Delivery) (r : consumerHandler × MongoDB × List Event)
    (hr : ConsumeClaim h db sess claim = Except.ok r) :
    r.1.sessionGenerationId = h.sessionGenerationId := by
  unfold ConsumeClaim at hr
  cases hc : consumeMessages (reloadIfRebalanced h db sess).1 (reloadIfRebalanced h db sess).2.1
      claim with
  | error f => rw [hc] at hr; cases hr
  | ok r1 =>
    rw [hc] at hr
    obtain ⟨h1, db1, e1⟩ := r1
    dsimp only at hr
    cases hr
    have := consumeMessages_generation claim _ _ _ hc
    rw [this]
    unfold reloadIfRebalanced
    split_ifs
    · exact loadReset_generation h db sess
    · rfl

/-- C20 (the code at the failing input): the handler of `main` under a
session of generation 1.  The first claim reloads and aggregates one sample
for keystem `k`; `sessionGenerationId` is still 0 afterwards, so a second
claim of the same generation reloads again (`PauseAll`, `ResetOffset`,
`ResumeAll`) and the aggregate of `k` is gone. -/
theorem C20_generation_never_recorded :
    (ConsumeClaim consumerHandler.initial emptyStore exampleSession [statsAt21]).toOption.map
        (fun r => (r.1.sessionGenerationId,
          (r.1.statsByKeystem.lookup "k").map (fun ks => ks.TotalRequests)))
      = some (0, some 1) ∧
    ((ConsumeClaim consumerHandler.initial emptyStore exampleSession [statsAt21]).toOption.bind
        (fun r => (ConsumeClaim r.1 r.2.1 exampleSession []).toOption)).map
        (fun r => (r.2.2, (r.1.statsByKeystem.lookup "k").isSome, r.1.sessionGenerationId))
      = some ([Event.PauseAll, Event.ResetOffset 0 2, Event.ResumeAll], false, 0) :=
  ⟨by decide, rfl⟩

/-! ## The aggregates are stored under their own keystem -/

theorem wellKeyed_empty : WellKeyed (∅ : StatsMap) := by
  intro k ks h
  simp at h

theorem wellKeyed_insert (m : StatsMap) (k : String) (ks : KeyStats) (hm : WellKeyed m)
    (hk : ks.UsedKeystem = k) : WellKeyed (m.insert k ks) := by
  intro k' ks' h
  by_cases hkk : k' = k
  · subst hkk
    rw [AList.lookup_insert] at h
    cases h
    exact hk
  · rw [AList.lookup_insert_ne hkk] at h
    exact hm k' ks' h

theorem wellKeyed_ensureKeyStats (m : StatsMap) (k : String) (hm : WellKeyed m) :
    WellKeyed (ensureKeyStats m k) := by
  unfold ensureKeyStats
  split
  · exact hm
  · exact wellKeyed_insert m k _ hm rfl

theorem wellKeyed_updateKeyStats (m : StatsMap) (k : String) (f : KeyStats → KeyStats)
    (hf : ∀ ks, (f ks).UsedKeystem = ks.UsedKeystem) (hm : WellKeyed m) :
    WellKeyed (updateKeyStats m k f) := by
  unfold updateKeyStats
  split
  · next ks hks =>
    exact wellKeyed_insert m k _ hm ((hf ks).trans (hm k ks hks))
  · exact hm

theorem wellKeyed_foldl_docs (docs : List KeyStats) :
    ∀ m : StatsMap, WellKeyed m →
      WellKeyed (docs.foldl (fun m d => m.insert d.UsedKeystem d) m) := by
  induction docs with
  | nil => intro m hm; exact hm
  | cons d ds ih =>
    intro m hm
    exact ih _ (wellKeyed_insert m _ d hm rfl)

theorem wellKeyed_foldl_entries (es : List (Sigma (fun _ : String => KeyStats)))
    (hes : ∀ e ∈ es, e.2.UsedKeystem = e.1) :
    ∀ m : StatsMap, WellKeyed m →
      WellKeyed (es.foldl (fun acc e => acc.insert e.1 e.2) m) := by
  induction es with
  | nil => intro m hm; exact hm
  | cons e es ih =>
    intro m hm
    exact ih (fun x hx => hes x (List.mem_cons_of_mem _ hx)) _
      (wellKeyed_insert m _ _ hm (hes e (List.mem_cons_self _ _)))

theorem wellKeyed_hydrate (m : StatsMap) (db : MongoDB) (k : String) (hm : WellKeyed m) :
    WellKeyed (hydrate m db k).1 := by
  unfold hydrate
  split
  · exact hm
  · dsimp only
    split
    · next keyStatsMap hgot =>
      apply wellKeyed_foldl_entries _ _ _ (wellKeyed_insert m k _ hm rfl)
      have hwk : WellKeyed keyStatsMap := by
        unfold GetKeyStats at hgot
        split_ifs at hgot
        cases hgot
        exact wellKeyed_foldl_docs _ _ wellKeyed_empty
      intro e he
      exact hwk e.1 e.2 (AList.mem_lookup_iff.mpr he)
    · exact wellKeyed_insert m k _ hm rfl

/-- Every step of the message loop keeps the aggregates under their own
keystem, so this holds in every state reached from the handler of `main`. -/
theorem handleMessage_wellKeyed (h : consumerHandler) (db : MongoDB) (d : Delivery)
    (r : consumerHandler × MongoDB × List Event) (hm : WellKeyed h.statsByKeystem)
    (hr : handleMessage h db d = Except.ok r) : WellKeyed r.1.statsByKeystem := by
  have hdel : ∀ k, WellKeyed (updateKeyStats (ensureKeyStats h.statsByKeystem k) k
      KeyStats.Reset) :=
    fun k => wellKeyed_updateKeyStats _ _ _ (fun _ => rfl) (wellKeyed_ensureKeyStats _ _ hm)
  have hagg : ∀ s : Stats, WellKeyed (updateKeyStats (hydrate h.statsByKeystem db s.UsedKeystem).1
      s.UsedKeystem (fun ks => ks.AggregateStats s)) :=
    fun s => wellKeyed_updateKeyStats _ _ _ (fun _ => rfl) (wellKeyed_hydrate _ _ _ hm)
  unfold handleMessage at hr
  simp only [] at hr
  split_ifs at hr <;> (repeat' split at hr) <;>
    first
    | (cases hr; exact hm)
    | (cases hr; exact hdel _)
    | (cases hr; exact hagg _)
    | cases hr

theorem loadReset_wellKeyed (h : consumerHandler) (db : MongoDB) (sess : Session)
    (hm : WellKeyed h.statsByKeystem) : WellKeyed (loadReset h db sess).handler.statsByKeystem := by
  unfold loadReset
  dsimp only
  split
  · exact hm
  · exact wellKeyed_empty

/-! ## Producer: the target partition -/

theorem sendMessage_partition (marshal : Payload → Option String) (v : Payload)
    (messageType : String) (message : ProducerMessage)
    (htype : messageType = "stats" ∨ messageType = "delete")
    (hsent : sendMessage marshal v messageType = SendResult.sent message) :
    message.Partition = hash v.UsedKeystem := by
  unfold sendMessage at hsent
  have hkey : ∀ k, sendMessage.usedKeyStem v messageType = some k → k = v.UsedKeystem := by
    intro k hk
    unfold sendMessage.usedKeyStem at hk
    rcases htype with rfl | rfl
    · cases v <;> simp [MessageTypeStats, Payload.UsedKeystem] at hk ⊢
      exact hk.symm
    · cases v <;> simp [MessageTypeStats, MessageTypeDelete, Payload.UsedKeystem] at hk ⊢
      exact hk.symm
  cases hk : sendMessage.usedKeyStem v messageType with
  | none => rw [hk] at hsent; cases hsent
  | some k =>
    rw [hk] at hsent
    dsimp only at hsent
    unfold buildProducerMessage at hsent
    cases hm : marshal v with
    | none => rw [hm] at hsent; cases hsent
    | some body =>
      rw [hm] at hsent
      dsimp only at hsent
      cases hsent
      rw [hkey k hk]

/-- C21: every message `sendMessage` builds as a statistics or a delete
message has the partition `hash k` of the keystem `k` its payload carries.
Hence two messages carrying the same keystem, of either kind and whatever
else their payloads hold, have the same partition. -/
theorem C21_same_keystem_same_partition (marshal : Payload → Option String) (v w : Payload)
    (tv tw : String) (mv mw : ProducerMessage)
    (htv : tv = "stats" ∨ tv = "delete") (htw : tw = "stats" ∨ tw = "delete")
    (hv : sendMessage marshal v tv = SendResult.sent mv)
    (hw : sendMessage marshal w tw = SendResult.sent mw)
    (hk : v.UsedKeystem = w.UsedKeystem) :
    mv.Partition = hash v.UsedKeystem ∧ mw.Partition = hash w.UsedKeystem ∧
      mv.Partition = mw.Partition := by
  have h1 := sendMessage_partition marshal v tv mv htv hv
  have h2 := sendMessage_partition marshal w tw mw htw hw
  exact ⟨h1, h2, by rw [h1, h2, hk]⟩

/-- Witness of C21: a statistics message and a delete message for the
keystem `k`. -/
theorem C21_same_keystem_same_partition_witness :
    sendMessage exampleMarshal (Payload.stats (exampleStats 5 false "t1")) "stats"
      = SendResult.sent
          { Topic := "statistics"
            Value := "stats:k"
            Partition := hash "k"
            Headers := [{ Key := "type", Value := "stats" }] } ∧
    sendMessage exampleMarshal (Payload.deleteRequest { UsedKeystem := "k" }) "delete"
      = SendResult.sent
          { Topic := "statistics"
            Value := "delete:k"
            Partition := hash "k"
            Headers := [{ Key := "type", Value := "delete" }] } ∧
    ({ Topic := "statistics", Value := "stats:k", Partition := hash "k",
       Headers := [{ Key := "type", Value := "stats" }] } : ProducerMessage).Partition
      = ({ Topic := "statistics", Value := "delete:k", Partition := hash "k",
           Headers := [{ Key := "type", Value := "delete" }] } : ProducerMessage).Partition :=
  ⟨rfl, rfl,
   (C21_same_keystem_same_partition exampleMarshal
      (Payload.stats (exampleStats 5 false "t1")) (Payload.deleteRequest { UsedKeystem := "k" })
      "stats" "delete" _ _ (Or.inl rfl) (Or.inr rfl) rfl rfl rfl).2.2⟩

/-! ## The two merges of Key Aggregates -/

/-- C23 (the code at the failing input): `KeyStats.AggregateKeyStats` and
`AggregatedKeyStats.AggregateKeyStats` agree on every shared field but
`AvgLatency`, where the first weighs `other.AvgItemsPerPack`, not
`other.AvgLatency`.  Merging a Key Aggregate of mean latency 20 and 3 items
per pack into one of mean latency 10, one request each, gives
`(10 + 3) / 2` instead of the weighted mean `(10 + 20) / 2`. -/
theorem C23_key_merge_latency (x : AggregatedKeyStats) (a b : KeyStats) :
    (a.AggregateKeyStats b).TotalItems = ((x.withFieldsOf a).AggregateKeyStats b).TotalItems ∧
    (a.AggregateKeyStats b).TotalVolume = ((x.withFieldsOf a).AggregateKeyStats b).TotalVolume ∧
    (a.AggregateKeyStats b).AvgItemsPerPack
      = ((x.withFieldsOf a).AggregateKeyStats b).AvgItemsPerPack ∧
    (a.AggregateKeyStats b).AvgVolumeUtilization
      = ((x.withFieldsOf a).AggregateKeyStats b).AvgVolumeUtilization ∧
    (a.AggregateKeyStats b).BoxTypes = ((x.withFieldsOf a).AggregateKeyStats b).BoxTypes ∧
    (a.AggregateKeyStats b).StatusCodes = ((x.withFieldsOf a).AggregateKeyStats b).StatusCodes ∧
    (a.AggregateKeyStats b).RequestErrorCount
      = ((x.withFieldsOf a).AggregateKeyStats b).RequestErrorCount ∧
    (a.AggregateKeyStats b).ErrorResponseCount
      = ((x.withFieldsOf a).AggregateKeyStats b).ErrorResponseCount ∧
    (a.AggregateKeyStats b).CacheHits = ((x.withFieldsOf a).AggregateKeyStats b).CacheHits ∧
    (a.AggregateKeyStats b).TotalRequests
      = ((x.withFieldsOf a).AggregateKeyStats b).TotalRequests ∧
    (a.AggregateKeyStats b).AvgLatency
      = F64.div
          (F64.add (F64.mul a.AvgLatency (F64.ofInt (a.TotalRequests - a.CacheHits)))
            (F64.mul b.AvgItemsPerPack (F64.ofInt (b.TotalRequests - b.CacheHits))))
          (F64.ofInt (a.TotalRequests - a.CacheHits + b.TotalRequests - b.CacheHits)) ∧
    ((oneRequestKeyStats "a" 1 10).AggregateKeyStats (oneRequestKeyStats "b" 3 20)).AvgLatency
      = F64.fin ((10 + 3) / 2) ∧
    ((x.withFieldsOf (oneRequestKeyStats "a" 1 10)).AggregateKeyStats
        (oneRequestKeyStats "b" 3 20)).AvgLatency
      = F64.fin ((10 + 20) / 2) ∧
    ((oneRequestKeyStats "a" 1 10).AggregateKeyStats (oneRequestKeyStats "b" 3 20)).AvgLatency
      ≠ ((x.withFieldsOf (oneRequestKeyStats "a" 1 10)).AggregateKeyStats
          (oneRequestKeyStats "b" 3 20)).AvgLatency := by
  have h1 : ((oneRequestKeyStats "a" 1 10).AggregateKeyStats
      (oneRequestKeyStats "b" 3 20)).AvgLatency = F64.fin ((10 + 3) / 2) := by
    simp [KeyStats.AggregateKeyStats, oneRequestKeyStats, NewKeyStats, KeyStats.Init, F64.ofInt]
    rw [F64.div_fin _ _ (by norm_num)]
  have h2 : ((x.withFieldsOf (oneRequestKeyStats "a" 1 10)).AggregateKeyStats
      (oneRequestKeyStats "b" 3 20)).AvgLatency = F64.fin ((10 + 20) / 2) := by
    simp [AggregatedKeyStats.AggregateKeyStats, AggregatedKeyStats.withFieldsOf,
      oneRequestKeyStats, NewKeyStats, KeyStats.Init, F64.ofInt]
    rw [F64.div_fin _ _ (by norm_num)]
  refine ⟨rfl, rfl, rfl, rfl, rfl, rfl, rfl, rfl, rfl, rfl, rfl, h1, h2, ?_⟩
  rw [h1, h2]
  intro h
  have := congrArg F64.toRat h
  norm_num [F64.toRat] at this

/-! ## Per-sample merge: closed forms over a sequence -/

theorem applySamples_usedKeystem (l : List Stats) :
    ∀ a : KeyStats, (applySamples a l).UsedKeystem = a.UsedKeystem := by
  induction l with
  | nil => intro a; rfl
  | cons s l ih => intro a; rw [applySamples_cons, ih]; rfl

theorem applySamples_counters (l : List Stats) : ∀ a : KeyStats,
    (applySamples a l).TotalItems = a.TotalItems + (l.map (fun s => s.TotalItems)).sum ∧
    (applySamples a l).RequestErrorCount
      = a.RequestErrorCount + (l.map (fun s => btoi s.RequestError)).sum ∧
    (applySamples a l).ErrorResponseCount
      = a.ErrorResponseCount + (l.map (fun s => btoi s.ErrorResponse)).sum := by
  induction l with
  | nil => intro a; simp [applySamples]
  | cons s l ih =>
    intro a
    obtain ⟨h1, h2, h3⟩ := ih (a.AggregateStats s)
    rw [applySamples_cons, h1, h2, h3]
    simp only [KeyStats.AggregateStats, List.map_cons, List.sum_cons]
    refine ⟨?_, ?_, ?_⟩ <;> ring

theorem applySamples_totalVolume (l : List Stats) : ∀ a : KeyStats,
    (applySamples a l).TotalVolume
      = F64.add a.TotalVolume (F64.sum (l.map (fun s => s.TotalVolume))) := by
  induction l with
  | nil => intro a; simp [applySamples, F64.sum, F64.add_zero_eq]
  | cons s l ih =>
    intro a
    rw [applySamples_cons, ih]
    simp only [KeyStats.AggregateStats, List.map_cons, F64.sum_cons, F64.add_shift]

theorem applySamples_boxTypes_count (key : String) (l : List Stats) : ∀ a : KeyStats,
    (applySamples a l).BoxTypes.count key
      = a.BoxTypes.count key + (l.map (fun s => s.BoxTypes.count key)).sum := by
  induction l with
  | nil => intro a; simp [applySamples]
  | cons s l ih =>
    intro a
    rw [applySamples_cons, ih]
    simp only [KeyStats.AggregateStats, List.map_cons, List.sum_cons, count_importCounts]
    ring

theorem applySamples_boxTypes_mem (key : String) (l : List Stats) : ∀ a : KeyStats,
    key ∈ (applySamples a l).BoxTypes ↔ key ∈ a.BoxTypes ∨ ∃ s ∈ l, key ∈ s.BoxTypes := by
  induction l with
  | nil => intro a; simp [applySamples]
  | cons s l ih =>
    intro a
    rw [applySamples_cons, ih]
    simp only [KeyStats.AggregateStats, mem_importCounts, List.mem_cons, exists_eq_or_imp,
      or_assoc]

/-- The number of times a status code is counted: once when it is the
non-empty status code of the sample. -/
theorem count_bumpStatus (codes : GoMap) (code key : String) :
    (bumpStatus codes code).count key
      = codes.count key + (if code ≠ "" ∧ key = code then 1 else 0) := by
  unfold GoMap.count
  rw [lookup_bumpStatus]
  split_ifs <;> simp

theorem mem_bumpStatus (codes : GoMap) (code key : String) :
    key ∈ bumpStatus codes code ↔ key ∈ codes ∨ (code ≠ "" ∧ key = code) := by
  simp only [← AList.lookup_isSome]
  rw [lookup_bumpStatus]
  split_ifs with h
  · simp [h]
  · simp [h]

theorem applySamples_statusCodes_count (key : String) (l : List Stats) : ∀ a : KeyStats,
    (applySamples a l).StatusCodes.count key
      = a.StatusCodes.count key
        + (l.map (fun s => if s.StatusCode ≠ "" ∧ key = s.StatusCode then (1 : Int) else 0)).sum := by
  induction l with
  | nil => intro a; simp [applySamples]
  | cons s l ih =>
    intro a
    rw [applySamples_cons, ih]
    simp only [KeyStats.AggregateStats, List.map_cons, List.sum_cons, count_bumpStatus]
    ring

theorem applySamples_statusCodes_mem (key : String) (l : List Stats) : ∀ a : KeyStats,
    key ∈ (applySamples a l).StatusCodes
      ↔ key ∈ a.StatusCodes ∨ ∃ s ∈ l, s.StatusCode ≠ "" ∧ key = s.StatusCode := by
  induction l with
  | nil => intro a; simp [applySamples]
  | cons s l ih =>
    intro a
    rw [applySamples_cons, ih]
    simp only [KeyStats.AggregateStats, mem_bumpStatus, List.mem_cons, exists_eq_or_imp,
      or_assoc]

/-- The invariant behind the running mean of items per pack. -/
theorem applySamples_avgItems (l : List Stats) :
    ∀ (a : KeyStats) (q : ℚ), a.AvgItemsPerPack = F64.fin q → 0 ≤ a.TotalRequests →
      ∃ q' : ℚ, (applySamples a l).AvgItemsPerPack = F64.fin q' ∧
        q' * ((a.TotalRequests : ℚ) + (l.length : ℚ))
          = q * (a.TotalRequests : ℚ) + (((l.map (fun s => s.TotalItems)).sum : Int) : ℚ) := by
  induction l with
  | nil =>
    intro a q ha _
    exact ⟨q, ha, by simp⟩
  | cons s l ih =>
    intro a q ha hn
    have hn' : (0 : ℚ) ≤ (a.TotalRequests : ℚ) := by exact_mod_cast hn
    have hne : (a.TotalRequests : ℚ) + 1 ≠ 0 := by linarith
    have h1 : (a.AggregateStats s).AvgItemsPerPack
        = F64.fin ((q * (a.TotalRequests : ℚ) + (s.TotalItems : ℚ))
            / ((a.TotalRequests : ℚ) + 1)) := by
      simp only [KeyStats.AggregateStats, ha, F64.ofInt, F64.mul_fin, F64.add_fin]
      rw [F64.div_fin _ _ hne]
    have h2 : (a.AggregateStats s).TotalRequests = a.TotalRequests + 1 := rfl
    obtain ⟨q', hq', he⟩ := ih (a.AggregateStats s) _ h1 (by rw [h2]; omega)
    refine ⟨q', by rw [applySamples_cons]; exact hq', ?_⟩
    rw [h2] at he
    push_cast at he
    rw [div_mul_cancel₀ _ hne] at he
    simp only [List.length_cons, List.map_cons, List.sum_cons]
    push_cast at he ⊢
    linarith

/-- The invariant behind the running mean of the volume utilisation. -/
theorem applySamples_avgVolume (l : List Stats) :
    ∀ (a : KeyStats) (q : ℚ), a.AvgVolumeUtilization = F64.fin q → 0 ≤ a.TotalRequests →
      (∀ s ∈ l, s.VolumeUtilization.IsFinite) →
      ∃ q' : ℚ, (applySamples a l).AvgVolumeUtilization = F64.fin q' ∧
        q' * ((a.TotalRequests : ℚ) + (l.length : ℚ))
          = q * (a.TotalRequests : ℚ) + (l.map (fun s => s.VolumeUtilization.toRat)).sum := by
  induction l with
  | nil =>
    intro a q ha _ _
    exact ⟨q, ha, by simp⟩
  | cons s l ih =>
    intro a q ha hn hfin
    obtain ⟨u, hu⟩ := (F64.isFinite_iff _).mp (hfin s (List.mem_cons_self _ _))
    have hn' : (0 : ℚ) ≤ (a.TotalRequests : ℚ) := by exact_mod_cast hn
    have hne : (a.TotalRequests : ℚ) + 1 ≠ 0 := by linarith
    have h1 : (a.AggregateStats s).AvgVolumeUtilization
        = F64.fin ((q * (a.TotalRequests : ℚ) + u) / ((a.TotalRequests : ℚ) + 1)) := by
      simp only [KeyStats.AggregateStats, ha, hu, F64.ofInt, F64.mul_fin, F64.add_fin]
      rw [F64.div_fin _ _ hne]
    have h2 : (a.AggregateStats s).TotalRequests = a.TotalRequests + 1 := rfl
    obtain ⟨q', hq', he⟩ := ih (a.AggregateStats s) _ h1 (by rw [h2]; omega)
      (fun t ht => hfin t (List.mem_cons_of_mem _ ht))
    refine ⟨q', by rw [applySamples_cons]; exact hq', ?_⟩
    rw [h2] at he
    push_cast at he
    rw [div_mul_cancel₀ _ hne] at he
    have hs : s.VolumeUtilization.toRat = u := by rw [hu]; rfl
    simp only [List.length_cons, List.map_cons, List.sum_cons, hs]
    push_cast at he ⊢
    linarith

/-! ## Invariants of the reachable Key Aggregates -/

theorem runOps_eq_applySamples (keystem : String) (ops : List KeyOp) :
    ∀ acc : List Stats,
      runOps (applySamples (NewKeyStats keystem) acc) ops
        = applySamples (NewKeyStats keystem) (samplesSince acc ops) := by
  induction ops with
  | nil => intro acc; rfl
  | cons op ops ih =>
    intro acc
    cases op with
    | sample s =>
      have h := ih (acc ++ [s])
      rw [applySamples_append] at h
      exact h
    | reset =>
      have h := ih []
      have hreset : (applySamples (NewKeyStats keystem) acc).Reset = NewKeyStats keystem := by
        rw [reset_eq_new, applySamples_usedKeystem]
        rfl
      show runOps ((applySamples (NewKeyStats keystem) acc).Reset) ops = _
      rw [hreset]
      exact h

/-- C25: a Key Aggregate reached from an empty one by applications of
samples and resets, the non-cache-hit samples since the last reset having
finite latencies, has finite means with
`AvgItemsPerPack * TotalRequests = TotalItems` and
`AvgLatency * (TotalRequests - CacheHits)` equal to the sum of the latencies
of the non-cache-hit samples applied since the last reset, and
`0 ≤ CacheHits ≤ TotalRequests`. -/
theorem C25_reachable_invariant (keystem : String) (ops : List KeyOp)
    (hfin : ∀ s ∈ sinceReset ops, s.CacheHit = false → s.Latency.IsFinite) :
    ∃ avg lat : ℚ,
      (runOps (NewKeyStats keystem) ops).AvgItemsPerPack = F64.fin avg ∧
      avg * ((runOps (NewKeyStats keystem) ops).TotalRequests : ℚ)
        = ((runOps (NewKeyStats keystem) ops).TotalItems : ℚ) ∧
      (runOps (NewKeyStats keystem) ops).AvgLatency = F64.fin lat ∧
      lat * (((runOps (NewKeyStats keystem) ops).TotalRequests : ℚ)
          - ((runOps (NewKeyStats keystem) ops).CacheHits : ℚ))
        = latencySum (sinceReset ops) ∧
      0 ≤ (runOps (NewKeyStats keystem) ops).CacheHits ∧
      (runOps (NewKeyStats keystem) ops).CacheHits
        ≤ (runOps (NewKeyStats keystem) ops).TotalRequests := by
  have hrun : runOps (NewKeyStats keystem) ops
      = applySamples (NewKeyStats keystem) (sinceReset ops) :=
    runOps_eq_applySamples keystem ops []
  rw [hrun]
  obtain ⟨avg, havg, hea⟩ :=
    applySamples_avgItems (sinceReset ops) (NewKeyStats keystem) 0 rfl
      (by simp [NewKeyStats, KeyStats.Init])
  obtain ⟨lat, hlat, hel⟩ :=
    applySamples_avgLatency (sinceReset ops) (NewKeyStats keystem) 0 rfl
      (by simp [NewKeyStats, KeyStats.Init]) hfin
  have hreq := applySamples_totalRequests (NewKeyStats keystem) (sinceReset ops)
  have hhit := applySamples_cacheHits (NewKeyStats keystem) (sinceReset ops)
  have hitems := (applySamples_counters (sinceReset ops) (NewKeyStats keystem)).1
  have hz1 : (NewKeyStats keystem).TotalRequests = 0 := rfl
  have hz2 : (NewKeyStats keystem).CacheHits = 0 := rfl
  have hz3 : (NewKeyStats keystem).TotalItems = 0 := rfl
  rw [hz1, zero_add] at hreq
  rw [hz2, zero_add] at hhit
  rw [hz3, zero_add] at hitems
  have hcount : ((sinceReset ops).filter (fun s => s.CacheHit)).length
      + (nonCacheHits (sinceReset ops)).length = (sinceReset ops).length := by
    unfold nonCacheHits
    induction sinceReset ops with
    | nil => rfl
    | cons s l ih =>
      cases hs : s.CacheHit <;> simp [List.filter_cons, hs] <;> omega
  refine ⟨avg, lat, havg, ?_, hlat, ?_, ?_, ?_⟩
  · rw [hreq, hitems]
    rw [hz1] at hea
    push_cast at hea ⊢
    linarith
  · rw [hreq, hhit]
    rw [hz1, hz2] at hel
    have hc : ((sinceReset ops).length : ℚ)
        - (((sinceReset ops).filter (fun s => s.CacheHit)).length : ℚ)
        = ((nonCacheHits (sinceReset ops)).length : ℚ) := by
      have : (((sinceReset ops).filter (fun s => s.CacheHit)).length : ℚ)
          + ((nonCacheHits (sinceReset ops)).length : ℚ) = ((sinceReset ops).length : ℚ) := by
        exact_mod_cast hcount
      linarith
    push_cast at hel ⊢
    rw [hc]
    linarith
  · rw [hhit]
    exact_mod_cast Nat.zero_le _
  · rw [hhit, hreq]
    exact_mod_cast List.length_filter_le _ _

/-- Witness of C25: two samples, a reset, then a non-cache-hit sample of
latency 7 and a cache hit. -/
theorem C25_reachable_invariant_witness :
    ∃ avg lat : ℚ,
      (runOps (NewKeyStats "k") exampleOps).AvgItemsPerPack = F64.fin avg ∧
      avg * 2 = 4 ∧
      (runOps (NewKeyStats "k") exampleOps).AvgLatency = F64.fin lat ∧
      lat * (2 - 1) = 7 := by
  obtain ⟨avg, lat, h1, h2, h3, h4, _, _⟩ := C25_reachable_invariant "k" exampleOps (by decide)
  refine ⟨avg, lat, h1, ?_, h3, ?_⟩
  · have hr : (runOps (NewKeyStats "k") exampleOps).TotalRequests = 2 := by decide
    have hi : (runOps (NewKeyStats "k") exampleOps).TotalItems = 4 := by decide
    rw [hr, hi] at h2
    exact_mod_cast h2
  · have hr : (runOps (NewKeyStats "k") exampleOps).TotalRequests = 2 := by decide
    have hc : (runOps (NewKeyStats "k") exampleOps).CacheHits = 1 := by decide
    have hs : latencySum (sinceReset exampleOps) = 7 := by
      simp [latencySum, sinceReset, samplesSince, nonCacheHits, exampleOps, exampleStats,
        F64.toRat]
    rw [hr, hc, hs] at h4
    exact_mod_cast h4

/-! ## Rollup of per-key aggregates against one aggregate of all samples -/

theorem lookup_eq_of_count_mem (m₁ m₂ : GoMap) (key : String)
    (hc : m₁.count key = m₂.count key) (hm : key ∈ m₁ ↔ key ∈ m₂) :
    m₁.lookup key = m₂.lookup key := by
  rw [lookup_eq_of_count m₁, lookup_eq_of_count m₂, hc]
  simp only [hm]

theorem count_eq_of_lookup (m₁ m₂ : GoMap) (key : String)
    (h : m₁.lookup key = m₂.lookup key) : m₁.count key = m₂.count key := by
  unfold GoMap.count
  rw [h]

theorem mem_iff_of_lookup (m₁ m₂ : GoMap) (key : String)
    (h : m₁.lookup key = m₂.lookup key) : key ∈ m₁ ↔ key ∈ m₂ := by
  rw [← AList.lookup_isSome, ← AList.lookup_isSome, h]

theorem length_hits_add_nonCacheHits (l : List Stats) :
    (l.filter (fun s => s.CacheHit)).length + (nonCacheHits l).length = l.length := by
  unfold nonCacheHits
  induction l with
  | nil => rfl
  | cons s l ih =>
    cases hs : s.CacheHit <;> simp [List.filter_cons, hs] <;> omega

theorem finiteMeans_new (keystem : String) : FiniteMeans (NewKeyStats keystem) :=
  ⟨trivial, trivial, trivial, le_refl _, le_refl _⟩

theorem sameSummary_new (keystem : String) :
    SameSummary NewAggregatedKeyStats (NewKeyStats keystem) :=
  ⟨rfl, rfl, rfl, rfl, rfl, rfl, fun _ => rfl, fun _ => rfl, rfl, rfl, rfl⟩

/-- One step of the comparison: merging the Key Aggregate of a sequence into
the Cross-Key Aggregate against applying the sequence to the Key Aggregate. -/
theorem sameSummary_step (x : AggregatedKeyStats) (a : KeyStats) (keystem : String)
    (l : List Stats) (hsame : SameSummary x a) (hfm : FiniteMeans a)
    (hmiss : ∃ s ∈ l, s.CacheHit = false)
    (hlat : ∀ s ∈ l, s.CacheHit = false → s.Latency.IsFinite)
    (hvol : ∀ s ∈ l, s.VolumeUtilization.IsFinite) :
    SameSummary (x.AggregateKeyStats (applySamples (NewKeyStats keystem) l)) (applySamples a l) ∧
      FiniteMeans (applySamples a l) := by
  obtain ⟨e1, e2, e3, e4, e5, e6, e7, e8, e9, e10, e11⟩ := hsame
  obtain ⟨f1, f2, f3, f4, f5⟩ := hfm
  obtain ⟨qi, hqi⟩ := (F64.isFinite_iff _).mp f1
  obtain ⟨qv, hqv⟩ := (F64.isFinite_iff _).mp f2
  obtain ⟨ql, hql⟩ := (F64.isFinite_iff _).mp f3
  -- the Key Aggregate of the sequence
  obtain ⟨kc1, kc2, kc3⟩ := applySamples_counters l (NewKeyStats keystem)
  have kreq := applySamples_totalRequests (NewKeyStats keystem) l
  have khit := applySamples_cacheHits (NewKeyStats keystem) l
  have kvol := applySamples_totalVolume l (NewKeyStats keystem)
  obtain ⟨ki, hki, hkie⟩ := applySamples_avgItems l (NewKeyStats keystem) 0 rfl (le_refl _)
  obtain ⟨kv, hkv, hkve⟩ := applySamples_avgVolume l (NewKeyStats keystem) 0 rfl (le_refl _) hvol
  obtain ⟨kl, hkl, hkle⟩ :=
    applySamples_avgLatency l (NewKeyStats keystem) 0 rfl (le_refl _) hlat
  have hz : (NewKeyStats keystem).TotalItems = 0 ∧ (NewKeyStats keystem).TotalRequests = 0 ∧
      (NewKeyStats keystem).CacheHits = 0 ∧ (NewKeyStats keystem).RequestErrorCount = 0 ∧
      (NewKeyStats keystem).ErrorResponseCount = 0 ∧
      (NewKeyStats keystem).TotalVolume = F64.fin 0 := ⟨rfl, rfl, rfl, rfl, rfl, rfl⟩
  obtain ⟨z1, z2, z3, z4, z5, z6⟩ := hz
  rw [z1, zero_add] at kc1
  rw [z4, zero_add] at kc2
  rw [z5, zero_add] at kc3
  rw [z2, zero_add] at kreq
  rw [z3, zero_add] at khit
  rw [z6, F64.zero_add_eq] at kvol
  -- the Key Aggregate of all samples
  obtain ⟨ac1, ac2, ac3⟩ := applySamples_counters l a
  have areq := applySamples_totalRequests a l
  have ahit := applySamples_cacheHits a l
  have avol := applySamples_totalVolume l a
  obtain ⟨ai, hai, haie⟩ := applySamples_avgItems l a qi hqi f4
  obtain ⟨av, hav, have_⟩ := applySamples_avgVolume l a qv hqv f4 hvol
  obtain ⟨al, hal, hale⟩ := applySamples_avgLatency l a ql hql f5 hlat
  -- sizes
  have hlenpos : 0 < (nonCacheHits l).length := by
    obtain ⟨s, hs, hc⟩ := hmiss
    exact List.length_pos_of_mem (by simp [nonCacheHits, hs, hc] : s ∈ nonCacheHits l)
  have hcount := length_hits_add_nonCacheHits l
  have hmissQ : (0 : ℚ) < ((nonCacheHits l).length : ℚ) := by exact_mod_cast hlenpos
  have hlenQ : (0 : ℚ) < (l.length : ℚ) := by
    have : 0 < l.length := by omega
    exact_mod_cast this
  have hcountQ : ((l.filter (fun s => s.CacheHit)).length : ℚ) + ((nonCacheHits l).length : ℚ)
      = (l.length : ℚ) := by exact_mod_cast hcount
  have hnQ : (0 : ℚ) ≤ (a.TotalRequests : ℚ) := by exact_mod_cast f4
  have hcQ : (0 : ℚ) ≤ (a.TotalRequests : ℚ) - (a.CacheHits : ℚ) := by exact_mod_cast f5
  refine ⟨⟨?_, ?_, ?_, ?_, ?_, ?_, ?_, ?_, ?_, ?_, ?_⟩, ?_⟩
  · show x.TotalItems + _ = _
    rw [kc1, ac1, e1]
  · show F64.add x.TotalVolume _ = _
    rw [kvol, avol, e2]
  · show x.TotalRequests + _ = _
    rw [kreq, areq, e3]
  · show x.CacheHits + _ = _
    rw [khit, ahit, e4]
  · show x.RequestErrorCount + _ = _
    rw [kc2, ac2, e5]
  · show x.ErrorResponseCount + _ = _
    rw [kc3, ac3, e6]
  · intro key
    apply lookup_eq_of_count_mem
    · show (importCounts _ x.BoxTypes).count key = _
      rw [count_importCounts, applySamples_boxTypes_count, applySamples_boxTypes_count,
        count_eq_of_lookup _ _ key (e7 key)]
      have : (NewKeyStats keystem).BoxTypes.count key = 0 := count_empty key
      rw [this, zero_add]
    · show key ∈ importCounts _ x.BoxTypes ↔ _
      rw [mem_importCounts, applySamples_boxTypes_mem, applySamples_boxTypes_mem,
        mem_iff_of_lookup _ _ key (e7 key)]
      have : key ∉ (NewKeyStats keystem).BoxTypes := not_mem_empty key
      simp only [this, false_or]
  · intro key
    apply lookup_eq_of_count_mem
    · show (importCounts _ x.StatusCodes).count key = _
      rw [count_importCounts, applySamples_statusCodes_count, applySamples_statusCodes_count,
        count_eq_of_lookup _ _ key (e8 key)]
      have : (NewKeyStats keystem).StatusCodes.count key = 0 := count_empty key
      rw [this, zero_add]
    · show key ∈ importCounts _ x.StatusCodes ↔ _
      rw [mem_importCounts, applySamples_statusCodes_mem, applySamples_statusCodes_mem,
        mem_iff_of_lookup _ _ key (e8 key)]
      have : key ∉ (NewKeyStats keystem).StatusCodes := not_mem_empty key
      simp only [this, false_or]
  · -- AvgItemsPerPack
    have hne : (((x.TotalRequests + (applySamples (NewKeyStats keystem) l).TotalRequests : Int))
        : ℚ) ≠ 0 := by
      rw [kreq, e3]; push_cast; linarith
    simp only [AggregatedKeyStats.AggregateKeyStats, e9, hqi, hki, F64.ofInt, F64.mul_fin,
      F64.add_fin]
    rw [F64.div_fin _ _ hne, hai]
    congr 1
    rw [div_eq_iff hne, kreq, e3]
    rw [z2] at hkie
    push_cast at hkie haie ⊢
    linarith
  · -- AvgVolumeUtilization
    have hne : (((x.TotalRequests + (applySamples (NewKeyStats keystem) l).TotalRequests : Int))
        : ℚ) ≠ 0 := by
      rw [kreq, e3]; push_cast; linarith
    simp only [AggregatedKeyStats.AggregateKeyStats, e10, hqv, hkv, F64.ofInt, F64.mul_fin,
      F64.add_fin]
    rw [F64.div_fin _ _ hne, hav]
    congr 1
    rw [div_eq_iff hne, kreq, e3]
    rw [z2] at hkve
    push_cast at hkve ⊢
    linarith
  · -- AvgLatency
    have hne : (((x.TotalRequests + (applySamples (NewKeyStats keystem) l).TotalRequests
        - x.CacheHits - (applySamples (NewKeyStats keystem) l).CacheHits : Int)) : ℚ) ≠ 0 := by
      rw [kreq, khit, e3, e4]; push_cast; linarith
    simp only [AggregatedKeyStats.AggregateKeyStats, e11, hql, hkl, F64.ofInt, F64.mul_fin,
      F64.add_fin]
    rw [F64.div_fin _ _ hne, hal]
    congr 1
    rw [div_eq_iff hne, kreq, khit, e3, e4]
    rw [z2, z3] at hkle
    push_cast at hkle hale ⊢
    have hk' : kl * ((l.length : ℚ) - ((l.filter (fun s => s.CacheHit)).length : ℚ))
        = latencySum l := by
      have : (l.length : ℚ) - ((l.filter (fun s => s.CacheHit)).length : ℚ)
          = ((nonCacheHits l).length : ℚ) := by linarith
      rw [this]
      linarith
    have ha' : al * ((a.TotalRequests : ℚ) + (l.length : ℚ) - (a.CacheHits : ℚ)
        - ((l.filter (fun s => s.CacheHit)).length : ℚ))
        = ql * ((a.TotalRequests : ℚ) - (a.CacheHits : ℚ)) + latencySum l := by
      have : (a.TotalRequests : ℚ) + (l.length : ℚ) - (a.CacheHits : ℚ)
          - ((l.filter (fun s => s.CacheHit)).length : ℚ)
          = (a.TotalRequests : ℚ) - (a.CacheHits : ℚ) + ((nonCacheHits l).length : ℚ) := by
        linarith
      rw [this]
      linarith
    linarith
  · refine ⟨?_, ?_, ?_, ?_, ?_⟩
    · rw [hai]; trivial
    · rw [hav]; trivial
    · rw [hal]; trivial
    · rw [areq]; omega
    · rw [areq, ahit]; omega

theorem sameSummary_fold (seqs : List (String × List Stats)) :
    ∀ (x : AggregatedKeyStats) (a : KeyStats), SameSummary x a → FiniteMeans a →
      (∀ p ∈ seqs, ∃ s ∈ p.2, s.CacheHit = false) →
      (∀ p ∈ seqs, ∀ s ∈ p.2, s.CacheHit = false → s.Latency.IsFinite) →
      (∀ p ∈ seqs, ∀ s ∈ p.2, s.VolumeUtilization.IsFinite) →
      SameSummary (foldKeyStats x (keyAggregates seqs)) (applySamples a (allSamples seqs)) := by
  induction seqs with
  | nil => intro x a hs _ _ _ _; exact hs
  | cons p rest ih =>
    intro x a hs hf hmiss hlat hvol
    obtain ⟨hs1, hf1⟩ := sameSummary_step x a p.1 p.2 hs hf
      (hmiss p (List.mem_cons_self _ _)) (hlat p (List.mem_cons_self _ _))
      (hvol p (List.mem_cons_self _ _))
    have h := ih _ _ hs1 hf1
      (fun q hq => hmiss q (List.mem_cons_of_mem _ hq))
      (fun q hq => hlat q (List.mem_cons_of_mem _ hq))
      (fun q hq => hvol q (List.mem_cons_of_mem _ hq))
    show SameSummary (foldKeyStats (x.AggregateKeyStats (applySamples (NewKeyStats p.1) p.2))
      (keyAggregates rest)) (applySamples a (p.2 ++ allSamples rest))
    rw [applySamples_append]
    exact h

/-- C24: sample sequences that each contain a non-cache-hit sample, with
finite volume utilisations and finite latencies of the non-cache-hit
samples.  Applying each sequence to its own empty Key Aggregate and folding
the results into a fresh Cross-Key Aggregate gives the same totals, error
counters, histograms and means (in exact arithmetic) as applying the
concatenation of the sequences to one empty Key Aggregate. -/
theorem C24_rollup_matches_single_aggregate (seqs : List (String × List Stats))
    (keystem : String)
    (hmiss : ∀ p ∈ seqs, ∃ s ∈ p.2, s.CacheHit = false)
    (hlat : ∀ p ∈ seqs, ∀ s ∈ p.2, s.CacheHit = false → s.Latency.IsFinite)
    (hvol : ∀ p ∈ seqs, ∀ s ∈ p.2, s.VolumeUtilization.IsFinite) :
    (foldKeyStats NewAggregatedKeyStats (keyAggregates seqs)).TotalItems
      = (applySamples (NewKeyStats keystem) (allSamples seqs)).TotalItems ∧
    (foldKeyStats NewAggregatedKeyStats (keyAggregates seqs)).TotalVolume
      = (applySamples (NewKeyStats keystem) (allSamples seqs)).TotalVolume ∧
    (foldKeyStats NewAggregatedKeyStats (keyAggregates seqs)).TotalRequests
      = (applySamples (NewKeyStats keystem) (allSamples seqs)).TotalRequests ∧
    (foldKeyStats NewAggregatedKeyStats (keyAggregates seqs)).CacheHits
      = (applySamples (NewKeyStats keystem) (allSamples seqs)).CacheHits ∧
    (foldKeyStats NewAggregatedKeyStats (keyAggregates seqs)).RequestErrorCount
      = (applySamples (NewKeyStats keystem) (allSamples seqs)).RequestErrorCount ∧
    (foldKeyStats NewAggregatedKeyStats (keyAggregates seqs)).ErrorResponseCount
      = (applySamples (NewKeyStats keystem) (allSamples seqs)).ErrorResponseCount ∧
    (∀ key, (foldKeyStats NewAggregatedKeyStats (keyAggregates seqs)).BoxTypes.lookup key
      = (applySamples (NewKeyStats keystem) (allSamples seqs)).BoxTypes.lookup key) ∧
    (∀ key, (foldKeyStats NewAggregatedKeyStats (keyAggregates seqs)).StatusCodes.lookup key
      = (applySamples (NewKeyStats keystem) (allSamples seqs)).StatusCodes.lookup key) ∧
    (foldKeyStats NewAggregatedKeyStats (keyAggregates seqs)).AvgItemsPerPack
      = (applySamples (NewKeyStats keystem) (allSamples seqs)).AvgItemsPerPack ∧
    (foldKeyStats NewAggregatedKeyStats (keyAggregates seqs)).AvgVolumeUtilization
      = (applySamples (NewKeyStats keystem) (allSamples seqs)).AvgVolumeUtilization ∧
    (foldKeyStats NewAggregatedKeyStats (keyAggregates seqs)).AvgLatency
      = (applySamples (NewKeyStats keystem) (allSamples seqs)).AvgLatency :=
  sameSummary_fold seqs NewAggregatedKeyStats (NewKeyStats keystem) (sameSummary_new keystem)
    (finiteMeans_new keystem) hmiss hlat hvol

/-- Witness of C24: two sequences, three samples in all, two of them not
cache hits with latencies 5 and 7: the rolled-up mean latency is the mean
latency of the single aggregate, which is `(5 + 7) / 2`. -/
theorem C24_rollup_matches_single_aggregate_witness :
    (foldKeyStats NewAggregatedKeyStats (keyAggregates exampleSequences)).AvgLatency
      = (applySamples (NewKeyStats "all") (allSamples exampleSequences)).AvgLatency ∧
    (foldKeyStats NewAggregatedKeyStats (keyAggregates exampleSequences)).AvgLatency
      = F64.fin ((5 + 7) / 2) ∧
    (foldKeyStats NewAggregatedKeyStats (keyAggregates exampleSequences)).TotalRequests = 3 := by
  have h := C24_rollup_matches_single_aggregate exampleSequences "all"
    (by decide) (by decide) (by decide)
  refine ⟨h.2.2.2.2.2.2.2.2.2.2, ?_, by decide⟩
  rw [h.2.2.2.2.2.2.2.2.2.2]
  simp [allSamples, exampleSequences, applySamples, KeyStats.AggregateStats, NewKeyStats,
    KeyStats.Init, exampleStats, F64.ofInt, btoi]
  norm_num [F64.div_fin]

/-! ## Claims that fail through a defect shown elsewhere -/

/-- C11 (the code at the failing input): in the state a failed reload
leaves, whose offset map is the nil map, a well-formed delete request for
any keystem panics at the assignment of its offset, before `writeStats` is
called: no flush is invoked and the message loop ends there. -/
theorem C11_delete_after_failed_reload (h : consumerHandler) (offsets : List PartitionOffset)
    (statistics : List KeyStats) (rest : List Outcome) (sess : Session) (db : MongoDB)
    (offset now : Int) (k : String) (claim : List Delivery) :
    (loadReset h { offsets := offsets, statistics := statistics, script := Outcome.error :: rest }
        sess).handler.offsetByPartition = none ∧
    handleMessage
        (loadReset h
          { offsets := offsets, statistics := statistics, script := Outcome.error :: rest }
          sess).handler db
        { msg := exampleMessage "delete" offset none (some { UsedKeystem := k }), now := now }
      = Except.error Fault.assignmentToNilMap ∧
    consumeMessages
        (loadReset h
          { offsets := offsets, statistics := statistics, script := Outcome.error :: rest }
          sess).handler db
        ({ msg := exampleMessage "delete" offset none (some { UsedKeystem := k }), now := now }
          :: claim)
      = Except.error Fault.assignmentToNilMap ∧
    ConsumeClaim consumerHandler.initial
        { offsets := [], statistics := [], script := [Outcome.error] } exampleSession
        [deleteAt20]
      = Except.error Fault.assignmentToNilMap := by
  rw [loadReset_read_failure]
  have hstep := handleMessage_delete_nil_offsets h db offset now { UsedKeystem := k }
  refine ⟨rfl, hstep, ?_, rfl⟩
  rw [consumeMessages, hstep]

/-- C18 (the code at the failing input): the handler flushes the checkpoints
`0 ↦ 10, 1 ↦ 20` and then `0 ↦ 11, 1 ↦ 21`, both flushes succeed.  The store
then holds two checkpoints for partition 0, the stale one behind the new
one; a reload whose read succeeds stores the stale offset 10 for partition 0
and calls `ResetOffset` with it, although the last persisted offset is 11.
When the maps are iterated in the other order it is partition 1 that resumes
at its stale offset 20 instead of 21. -/
theorem C18_reload_stale_checkpoint :
    (writeStats (handlerWithOffsets (AList.insert 0 10 (AList.insert 1 20 ∅))) emptyStore).1
      = none ∧
    (writeStats (handlerWithOffsets (AList.insert 0 11 (AList.insert 1 21 ∅)))
      (writeStats (handlerWithOffsets (AList.insert 0 10 (AList.insert 1 20 ∅))) emptyStore).2).1
      = none ∧
    twiceFlushedStore.offsets
      = [{ Partition := 0, Offset := 11 }, { Partition := 0, Offset := 10 },
          { Partition := 1, Offset := 21 }] ∧
    (loadReset consumerHandler.initial twiceFlushedStore sessionOfTwo).err = none ∧
    (loadReset consumerHandler.initial twiceFlushedStore sessionOfTwo).handler.offsetByPartition
      = some (AList.insert 1 21 (AList.insert 0 10 ∅)) ∧
    (loadReset consumerHandler.initial twiceFlushedStore sessionOfTwo).events
      = [Event.ResetOffset 1 21, Event.ResetOffset 0 10] ∧
    twiceFlushedStoreReversed.offsets
      = [{ Partition := 1, Offset := 21 }, { Partition := 1, Offset := 20 },
          { Partition := 0, Offset := 11 }] ∧
    (loadReset consumerHandler.initial twiceFlushedStoreReversed sessionOfTwo).err = none ∧
    (loadReset consumerHandler.initial twiceFlushedStoreReversed sessionOfTwo).events
      = [Event.ResetOffset 0 11, Event.ResetOffset 1 20] :=
  ⟨rfl, rfl, rfl, rfl, rfl, rfl, rfl, rfl, rfl⟩

/-! ## Rounding of float64 sums -/

theorem roundHalfEven_intCast (m : Int) : roundHalfEven (m : ℚ) = m := by
  unfold roundHalfEven
  simp

theorem roundHalfEven_down (x : ℚ) (f : Int) (h1 : (f : ℚ) ≤ x) (h2 : x < (f : ℚ) + 1 / 2) :
    roundHalfEven x = f := by
  have hf : ⌊x⌋ = f := Int.floor_eq_iff.mpr ⟨h1, by linarith⟩
  unfold roundHalfEven
  rw [hf, if_pos (by linarith)]

theorem roundHalfEven_tie_odd (x : ℚ) (f : Int) (hx : x = (f : ℚ) + 1 / 2) (hodd : f % 2 = 1) :
    roundHalfEven x = f + 1 := by
  have hf : ⌊x⌋ = f := Int.floor_eq_iff.mpr ⟨by linarith, by linarith⟩
  unfold roundHalfEven
  rw [hf, if_neg (by linarith), if_neg (by linarith), if_neg (by omega)]

theorem F64.round_eq (q : ℚ) (e m : Int) (hq : 0 < q) (hlo : (2 : ℚ) ^ (e + 52) ≤ q)
    (hhi : q < (2 : ℚ) ^ (e + 53)) (hm : roundHalfEven (q / (2 : ℚ) ^ e) = m) :
    F64.round q = (m : ℚ) * (2 : ℚ) ^ e := by
  have hlog : Int.log 2 |q| = e + 52 := by
    rw [abs_of_pos hq]
    have h1 : e + 52 ≤ Int.log 2 q := (Int.zpow_le_iff_le_log (by norm_num) hq).mp hlo
    have h2 : Int.log 2 q < e + 53 := (Int.lt_zpow_iff_log_lt (by norm_num) hq).mp hhi
    omega
  unfold F64.round
  rw [if_neg hq.ne', hlog]
  have he : e + 52 - 52 = e := by omega
  rw [he, hm]

theorem F64.round_exact (q : ℚ) (e m : Int) (hq : 0 < q) (hlo : (2 : ℚ) ^ (e + 52) ≤ q)
    (hhi : q < (2 : ℚ) ^ (e + 53)) (hval : q / (2 : ℚ) ^ e = (m : ℚ)) :
    F64.round q = q := by
  rw [F64.round_eq q e m hq hlo hhi (by rw [hval]; exact roundHalfEven_intCast m), ← hval]
  have h2 : (2 : ℚ) ^ e ≠ 0 := zpow_ne_zero e (by norm_num)
  field_simp

theorem round_tenth : F64.round tenth = tenth :=
  F64.round_exact tenth (-56) 7205759403792794 (by norm_num [tenth]) (by norm_num [tenth])
    (by norm_num [tenth]) (by norm_num [tenth])

theorem round_fifth : F64.round fifth = fifth :=
  F64.round_exact fifth (-55) 7205759403792794 (by norm_num [fifth]) (by norm_num [fifth])
    (by norm_num [fifth]) (by norm_num [fifth])

theorem round_threeTenths : F64.round threeTenths = threeTenths :=
  F64.round_exact threeTenths (-54) 5404319552844595 (by norm_num [threeTenths])
    (by norm_num [threeTenths]) (by norm_num [threeTenths]) (by norm_num [threeTenths])

/-- `0.1 + 0.2` lies half way between two float64 values and rounds up to
`0.30000000000000004`. -/
theorem round_tenth_add_fifth :
    F64.round (tenth + fifth) = 5404319552844596 / 18014398509481984 := by
  rw [F64.round_eq (tenth + fifth) (-54) 5404319552844596 (by norm_num [tenth, fifth])
    (by norm_num [tenth, fifth]) (by norm_num [tenth, fifth])
    (roundHalfEven_tie_odd _ 5404319552844595 (by norm_num [tenth, fifth]) (by decide))]
  norm_num

/-- `0.30000000000000004 + 0.3` lies half way again and rounds up to
`0.6000000000000001`. -/
theorem round_sum_ascending :
    F64.round (5404319552844596 / 18014398509481984 + threeTenths)
      = 5404319552844596 / 9007199254740992 := by
  rw [F64.round_eq (5404319552844596 / 18014398509481984 + threeTenths) (-53) 5404319552844596
    (by norm_num [threeTenths]) (by norm_num [threeTenths]) (by norm_num [threeTenths])
    (roundHalfEven_tie_odd _ 5404319552844595 (by norm_num [threeTenths]) (by decide))]
  norm_num

/-- `0.3 + 0.2` is exactly `0.5`. -/
theorem round_threeTenths_add_fifth : F64.round (threeTenths + fifth) = 1 / 2 := by
  have h : threeTenths + fifth = 1 / 2 := by norm_num [threeTenths, fifth]
  rw [h]
  exact F64.round_exact (1 / 2) (-53) 4503599627370496 (by norm_num) (by norm_num)
    (by norm_num) (by norm_num)

/-- `0.5 + 0.1` rounds down to `0.6`. -/
theorem round_sum_descending :
    F64.round (1 / 2 + tenth) = 5404319552844595 / 9007199254740992 := by
  rw [F64.round_eq (1 / 2 + tenth) (-53) 5404319552844595 (by norm_num [tenth])
    (by norm_num [tenth]) (by norm_num [tenth])
    (roundHalfEven_down _ 5404319552844595 (by norm_num [tenth]) (by norm_num [tenth]))]
  norm_num


theorem foldTotalVolume_volumesAscending :
    foldTotalVolume NewAggregatedKeyStats.TotalVolume volumesAscending
      = F64.fin (5404319552844596 / 9007199254740992) := by
  have h : foldTotalVolume NewAggregatedKeyStats.TotalVolume volumesAscending
      = F64.fin (F64.round (F64.round (F64.round (0 + tenth) + fifth) + threeTenths)) := rfl
  rw [h, zero_add, round_tenth, round_tenth_add_fifth, round_sum_ascending]

theorem foldTotalVolume_volumesDescending :
    foldTotalVolume NewAggregatedKeyStats.TotalVolume volumesDescending
      = F64.fin (5404319552844595 / 9007199254740992) := by
  have h : foldTotalVolume NewAggregatedKeyStats.TotalVolume volumesDescending
      = F64.fin (F64.round (F64.round (F64.round (0 + threeTenths) + fifth) + tenth)) := rfl
  rw [h, zero_add, round_threeTenths, round_threeTenths_add_fifth, round_sum_descending]

/-- The field `TotalVolume` of the fold in exact arithmetic is the same loop
as `foldTotalVolume` with the exact sum in place of the rounded one. -/
theorem foldKeyStats_totalVolume_loop (ks : List KeyStats) : ∀ x : AggregatedKeyStats,
    (foldKeyStats x ks).TotalVolume
      = ks.foldl (fun acc k => F64.add acc k.TotalVolume) x.TotalVolume := by
  induction ks with
  | nil => intro x; rfl
  | cons k ks ih =>
    intro x
    rw [foldKeyStats_cons, ih]
    rfl

/-- C6 (counterexample): with the rounding of float64, the statement
`akStats.TotalVolume += keyStats.TotalVolume` of
`AggregatedKeyStats.AggregateKeyStats` makes `TotalVolume` depend on the
order of the fold. The Key Aggregates with total volumes `0.1`, `0.2` and
`0.3` (each a float64 value) folded in this order into a fresh Cross-Key
Aggregate give `0.6000000000000001`; folded in the reverse order, a
permutation of the list, they give `0.6`. -/
theorem C6_total_volume_order_dependent :
    volumesAscending.Perm volumesDescending ∧
    (F64.round tenth = tenth ∧ F64.round fifth = fifth ∧ F64.round threeTenths = threeTenths) ∧
    foldTotalVolume NewAggregatedKeyStats.TotalVolume volumesAscending
      = F64.fin (5404319552844596 / 9007199254740992) ∧
    foldTotalVolume NewAggregatedKeyStats.TotalVolume volumesDescending
      = F64.fin (5404319552844595 / 9007199254740992) ∧
    foldTotalVolume NewAggregatedKeyStats.TotalVolume volumesAscending
      ≠ foldTotalVolume NewAggregatedKeyStats.TotalVolume volumesDescending := by
  refine ⟨?_, ⟨round_tenth, round_fifth, round_threeTenths⟩,
    foldTotalVolume_volumesAscending, foldTotalVolume_volumesDescending, ?_⟩
  · exact (List.reverse_perm volumesDescending :
      List.Perm volumesAscending volumesDescending)
  · rw [foldTotalVolume_volumesAscending, foldTotalVolume_volumesDescending]
    intro h
    injection h with h
    norm_num at h

end Pacproxy
